import Mathlib

/-!
Formal model of the Futbol pickup-match statistics application.

The definitions below are shallow embeddings of the TypeScript source:
the domain model (`types.ts`), the local-storage persistence backend
(`services/db.ts`), the statistics aggregators and the match lifecycle
handlers (`App.tsx` in the matches variant and in the players-only
variant), and the narrative generator (`services/geminiService.ts`).

Modelling conventions:
* JS numbers used as counters are modelled as `Nat`; the minute of an
  event is an `Int` (it is computed from a real-valued random draw).
* The `date` field of a match holds an ISO-8601 string in the source,
  which is only ever consumed through `new Date(d).getTime()`; we model
  the field directly as the parsed millisecond timestamp (a `Nat`).
* Optional fields are `Option`; JS truthiness of an optional string
  (`undefined` and `""` are falsy) is `truthyStr`.
* `Array.prototype.sort cmp` (stable, with a comparator returning
  `b.key - a.key`) is modelled as a stable insertion sort `sortBy le`
  with `le a b` meaning `cmp a b ≤ 0`.
* The browser-local backend stores each collection as one JSON array
  under one key; a stored collection is modelled as the `List` it
  deserializes to (absent key = empty list).
-/

namespace Futbol

/-! ## JS-style helpers -/

/-- Truthiness of an optional string: `undefined` and `""` are falsy. -/
def truthyStr : Option String → Bool
  | none => false
  | some s => s ≠ ""

/-- Models `Number(x || 0)` on an optional numeric field. -/
def orZero : Option Nat → Nat
  | none => 0
  | some n => n

/-! ## A model of `Array.prototype.sort`

JS `sort(cmp)` is stable; an element `a` ends up before `b` exactly when
the comparator deems `a ≤ b` (for a consistent comparator).  We model it
with a stable insertion sort parameterised by the boolean relation
`le a b := cmp a b ≤ 0`. -/

variable {α : Type}

/-- Insert `a` in front of the first element `x` with `le a x`. -/
def orderedInsertB (le : α → α → Bool) (a : α) : List α → List α
  | [] => [a]
  | x :: xs => if le a x then a :: x :: xs else x :: orderedInsertB le a xs

/-- Stable insertion sort; model of `Array.prototype.sort`. -/
def sortBy (le : α → α → Bool) : List α → List α
  | [] => []
  | x :: xs => orderedInsertB le x (sortBy le xs)

/-- Replace the first element satisfying `p` by `a`
(model of `findIndex` + assignment; a miss leaves the list unchanged,
matching the guarded write in the source). -/
def replaceFirstBy (p : α → Bool) (a : α) : List α → List α
  | [] => []
  | x :: xs => if p x then a :: xs else x :: replaceFirstBy p a xs

/-! ## Domain model (`types.ts`) -/

/-- Player position (`Position` enum: Portero, Defensa, Mediocampista, Delantero). -/
inductive Position
  | gk
  | defender
  | midfielder
  | forward
deriving DecidableEq, Repr

/-- `Player` interface.  Baseline counters are optional; absent is treated
as zero wherever they are read (`Number(x || 0)`). -/
structure Player where
  id : String
  name : String
  nickname : Option String := none
  photoUrl : Option String := none
  position : Position
  initialGoals : Option Nat := none
  initialAssists : Option Nat := none
  initialMatches : Option Nat := none
  initialSaves : Option Nat := none
  initialClearances : Option Nat := none
deriving DecidableEq, Repr

/-- `EventType` enum (Gol, Asistencia, Tarjeta Amarilla, Tarjeta Roja,
Atajada, Sustitución). -/
inductive EventType
  | goal
  | assist
  | yellowCard
  | redCard
  | save
  | substitution
deriving DecidableEq, Repr

/-- The string value of an `EventType` member (used in the narrative prompt). -/
def eventTypeStr : EventType → String
  | .goal => "Gol"
  | .assist => "Asistencia"
  | .yellowCard => "Tarjeta Amarilla"
  | .redCard => "Tarjeta Roja"
  | .save => "Atajada"
  | .substitution => "Sustitución"

/-- The `'home' | 'away'` side tag. -/
inductive Side
  | home
  | away
deriving DecidableEq, Repr

/-- `MatchEvent` interface.  `minute` is computed from a random draw and
may in principle be any integer, so it is an `Int`. -/
structure MatchEvent where
  id : String
  matchId : String
  side : Side
  playerId : String
  assistPlayerId : Option String := none
  type : EventType
  minute : Int
  timestamp : Nat
deriving DecidableEq, Repr

/-- `Match` interface.  `date` is the millisecond timestamp that
`new Date(m.date).getTime()` yields for the stored ISO string. -/
structure Match where
  id : String
  homeTeamName : String
  awayTeamName : String
  homePlayerIds : List String
  awayPlayerIds : List String
  homeScore : Nat
  awayScore : Nat
  date : Nat
  isFinished : Bool
  events : List MatchEvent
  aiAnalysis : Option String := none
deriving DecidableEq, Repr

/-! ## Local persistence backend (`services/db.ts`, localStorage branch)

Each collection is stored as one JSON array under one fixed key; a stored
collection is the list it deserializes to (missing key = `[]`).  Every
mutation re-reads the collection via the corresponding `getAll`, applies
the change, and rewrites the whole collection. -/

/-- `dbService.getAllPlayers` (local branch): return the stored array. -/
def getAllPlayersLocal (s : List Player) : List Player := s

/-- `dbService.addPlayer` (local branch): read all, push, rewrite. -/
def addPlayerLocal (p : Player) (s : List Player) : List Player :=
  getAllPlayersLocal s ++ [p]

/-- `dbService.updatePlayer` (local branch): read all, replace the entry
at `findIndex(q => q.id === p.id)` if found, rewrite (a miss writes nothing). -/
def updatePlayerLocal (p : Player) (s : List Player) : List Player :=
  replaceFirstBy (fun q => q.id == p.id) p (getAllPlayersLocal s)

/-- `dbService.deletePlayer` (local branch): keep entries whose id differs. -/
def deletePlayerLocal (i : String) (s : List Player) : List Player :=
  (getAllPlayersLocal s).filter (fun q => q.id != i)

/-- The match comparator `(a, b) => dateMs b - dateMs a`, as the relation
"`a` may precede `b`", i.e. the comparator is `≤ 0`. -/
def matchDateLe (a b : Match) : Bool := b.date ≤ a.date

/-- `dbService.getAllMatches` (local branch): read the stored array and
sort it by date descending. -/
def getAllMatchesLocal (s : List Match) : List Match :=
  sortBy matchDateLe s

/-- `dbService.addMatch` (local branch): read all (sorted), push, rewrite. -/
def addMatchLocal (m : Match) (s : List Match) : List Match :=
  getAllMatchesLocal s ++ [m]

/-- `dbService.updateMatch` (local branch): read all (sorted), replace the
entry at `findIndex(q => q.id === m.id)` if found and rewrite; on a miss
nothing is written, so the stored value is unchanged. -/
def updateMatchLocal (m : Match) (s : List Match) : List Match :=
  if s.any (fun q => q.id == m.id) then
    replaceFirstBy (fun q => q.id == m.id) m (getAllMatchesLocal s)
  else s

/-- `dbService.deleteMatch` (local branch): read all (sorted), keep entries
whose id differs, rewrite. -/
def deleteMatchLocal (i : String) (s : List Match) : List Match :=
  (getAllMatchesLocal s).filter (fun q => q.id != i)

/-! ## Statistics aggregator, matches variant (`App.tsx`, `stats`)

The source builds a record `s : Record<string, {goals, assists, matches}>`
keyed by player id (insertion order, later assignments to an existing key
overwrite in place), then replays finished matches over it, and finally
turns it into a sorted entry list.  The record is modelled as an
association list with in-place overwrite (`upsertKey`) and first-key
update (`bumpWith`). -/

/-- Per-player counter record of the matches-variant aggregator. -/
structure StatRec where
  goals : Nat
  assists : Nat
  matchesPlayed : Nat
deriving DecidableEq, Repr

/-- Seed record: `{goals: Number(p.initialGoals || 0), ...}`. -/
def initRec (p : Player) : StatRec :=
  ⟨orZero p.initialGoals, orZero p.initialAssists, orZero p.initialMatches⟩

/-- `s[k] = v` on a JS object: overwrite in place if the key exists,
append otherwise. -/
def upsertKey (k : String) (v : StatRec) : List (String × StatRec) → List (String × StatRec)
  | [] => [(k, v)]
  | (k', v') :: rest =>
      if k' == k then (k, v) :: rest else (k', v') :: upsertKey k v rest

/-- First value stored under `k`, if any. -/
def lookupKey (k : String) : List (String × StatRec) → Option StatRec
  | [] => none
  | (k', v') :: rest => if k' == k then some v' else lookupKey k rest

/-- Truthiness of `s[k]` (a record value is always truthy when present). -/
def hasKey (k : String) (s : List (String × StatRec)) : Bool :=
  (lookupKey k s).isSome

/-- Apply `f` to the value stored under `k` (no-op when the key is absent);
models `s[k].field++`. -/
def bumpWith (f : StatRec → StatRec) (k : String) :
    List (String × StatRec) → List (String × StatRec)
  | [] => []
  | (k', v') :: rest =>
      if k' == k then (k', f v') :: rest else (k', v') :: bumpWith f k rest

def incGoals (r : StatRec) : StatRec := { r with goals := r.goals + 1 }
def incAssists (r : StatRec) : StatRec := { r with assists := r.assists + 1 }
def incMatches (r : StatRec) : StatRec := { r with matchesPlayed := r.matchesPlayed + 1 }

/-- `players.forEach(p => s[p.id] = {...})`. -/
def seedStats (players : List Player) : List (String × StatRec) :=
  players.foldl (fun s p => upsertKey p.id (initRec p) s) []

/-- `if (s[pid]) s[pid].matches++` for one participating player id. -/
def applyParticipant (s : List (String × StatRec)) (pid : String) :
    List (String × StatRec) :=
  if hasKey pid s then bumpWith incMatches pid s else s

/-- The key of a truthy `e.assistPlayerId`, if any. -/
def assistKey (e : MatchEvent) : Option String :=
  match e.assistPlayerId with
  | none => none
  | some a => if a ≠ "" then some a else none

/-- First statement of the event replay:
`if (e.type === Goal && s[e.playerId]) s[e.playerId].goals++`. -/
def applyEventGoal (s : List (String × StatRec)) (e : MatchEvent) :
    List (String × StatRec) :=
  if e.type == .goal && hasKey e.playerId s then
    bumpWith incGoals e.playerId s
  else s

/-- Second statement of the event replay:
`if (e.type === Goal && e.assistPlayerId && s[e.assistPlayerId]) s[e.assistPlayerId].assists++`. -/
def applyEventAssist (s : List (String × StatRec)) (e : MatchEvent) :
    List (String × StatRec) :=
  match assistKey e with
  | some a => if e.type == .goal && hasKey a s then bumpWith incAssists a s else s
  | none => s

/-- Replay one event: the two statements in sequence. -/
def applyEvent (s : List (String × StatRec)) (e : MatchEvent) :
    List (String × StatRec) :=
  applyEventAssist (applyEventGoal s e) e

/-- Replay one (finished) match: bump the match count of every
participating id present in the record, then replay its events. -/
def applyMatch (s : List (String × StatRec)) (m : Match) :
    List (String × StatRec) :=
  m.events.foldl applyEvent
    ((m.homePlayerIds ++ m.awayPlayerIds).foldl applyParticipant s)

/-- The aggregated per-player record after seeding from baselines and
replaying every finished match. -/
def statsAssoc (players : List Player) (ms : List Match) :
    List (String × StatRec) :=
  (ms.filter (fun m => m.isFinished)).foldl applyMatch (seedStats players)

/-- Leaderboard entry of the matches-variant aggregator
(`{...data, id, player: players.find(p => p.id === id)}`). -/
structure AppEntry where
  id : String
  goals : Nat
  assists : Nat
  matchesPlayed : Nat
  player : Option Player
deriving DecidableEq, Repr

/-- Comparator `(a, b) => b.goals - a.goals` as "may precede". -/
def appEntryLe (a b : AppEntry) : Bool := b.goals ≤ a.goals

/-- The matches-variant `stats` value: entries of the record, sorted by
goals descending. -/
def statsApp (players : List Player) (ms : List Match) : List AppEntry :=
  sortBy appEntryLe
    ((statsAssoc players ms).map (fun kv =>
      ⟨kv.1, kv.2.goals, kv.2.assists, kv.2.matchesPlayed,
        players.find? (fun p => p.id == kv.1)⟩))

/-- Derived goal count stored under a key (0 when the key is absent). -/
def goalsVal (k : String) (s : List (String × StatRec)) : Nat :=
  ((lookupKey k s).map StatRec.goals).getD 0

/-- Derived assist count stored under a key (0 when the key is absent). -/
def assistsVal (k : String) (s : List (String × StatRec)) : Nat :=
  ((lookupKey k s).map StatRec.assists).getD 0

/-- Derived match count stored under a key (0 when the key is absent). -/
def matchesVal (k : String) (s : List (String × StatRec)) : Nat :=
  ((lookupKey k s).map StatRec.matchesPlayed).getD 0

/-- Whether some event of a finished match references the player id,
either as acting player or as assisting player. -/
def referencedIn (pid : String) (ms : List Match) : Bool :=
  ms.any (fun m => m.isFinished &&
    m.events.any (fun e => e.playerId == pid || e.assistPlayerId == some pid))

/-! ## Statistics aggregator, players-only variant (`stats` of the
players-only `App.tsx`): pure baseline counters, sorted with the
two-tier comparator (goalkeeper pairs by saves, otherwise by goals). -/

/-- Leaderboard entry of the players-only aggregator. -/
structure POEntry where
  id : String
  player : Player
  goals : Nat
  assists : Nat
  saves : Nat
  clearances : Nat
  matchesPlayed : Nat
  ga : Nat
deriving DecidableEq, Repr

/-- One entry, straight from the baseline counters. -/
def mkPOEntry (p : Player) : POEntry :=
  let goals := orZero p.initialGoals
  let assists := orZero p.initialAssists
  ⟨p.id, p, goals, assists, orZero p.initialSaves, orZero p.initialClearances,
    orZero p.initialMatches, goals + assists⟩

/-- Comparator of the players-only leaderboard, as "may precede":
`if (a.GK && b.GK) return b.saves - a.saves; return b.goals - a.goals`. -/
def poLe (a b : POEntry) : Bool :=
  if a.player.position == Position.gk && b.player.position == Position.gk then
    b.saves ≤ a.saves
  else
    b.goals ≤ a.goals

/-- The players-only `stats` value. -/
def statsPO (players : List Player) : List POEntry :=
  sortBy poLe (players.map mkPOEntry)

/-- The ordering property claimed for the leaderboard: whenever `a`
precedes `b`, goalkeeper pairs satisfy `a.saves ≥ b.saves` and all other
pairs satisfy `a.goals ≥ b.goals`. -/
def claimPairOK (a b : POEntry) : Prop :=
  (¬(a.player.position = Position.gk ∧ b.player.position = Position.gk) →
    b.goals ≤ a.goals) ∧
  ((a.player.position = Position.gk ∧ b.player.position = Position.gk) →
    b.saves ≤ a.saves)

instance (a b : POEntry) : Decidable (claimPairOK a b) := by
  unfold claimPairOK
  infer_instance

/-! ## Match lifecycle controller (`App.tsx` handlers)

`startMatch`, `addEvent` and `finishMatch` mutate the active match and
write through to the persistence gateway.  The controller state is the
persisted match collection plus the `activeMatchId` tracker.  Free
inputs of the handlers (generated ids, `Date.now()`, `Math.random()`,
the generated report text) are operation parameters. -/

/-- `Math.floor(Math.random() * 90) + 1` for a random draw `r ∈ [0, 1)`. -/
def jsMinute (r : ℚ) : Int := ⌊r * 90⌋ + 1

/-- The event built by `addEvent` (no `assistPlayerId` is ever set). -/
def mkEvent (m : Match) (t : EventType) (side : Side) (pid eid : String)
    (r : ℚ) (ts : Nat) : MatchEvent :=
  { id := eid, matchId := m.id, side := side, playerId := pid,
    assistPlayerId := none, type := t, minute := jsMinute r, timestamp := ts }

/-- The updated match built by `addEvent`: the new event is prepended to
the event list and the scoring side's score is incremented exactly when
the event is a goal. -/
def addEventMatch (m : Match) (t : EventType) (side : Side) (pid eid : String)
    (r : ℚ) (ts : Nat) : Match :=
  let updatedHomeScore :=
    if t == .goal && side == .home then m.homeScore + 1 else m.homeScore
  let updatedAwayScore :=
    if t == .goal && side == .away then m.awayScore + 1 else m.awayScore
  { m with homeScore := updatedHomeScore, awayScore := updatedAwayScore,
           events := mkEvent m t side pid eid r ts :: m.events }

/-- Score of the given side. -/
def scoreOf : Side → Match → Nat
  | .home, m => m.homeScore
  | .away, m => m.awayScore

/-- The opposite side. -/
def otherSide : Side → Side
  | .home => .away
  | .away => .home

/-- The match created by `startMatch` (team names default on empty input,
zero score, empty event list, unfinished). -/
def newMatchOf (hn an : String) (his ais : List String) (nid : String)
    (now : Nat) : Match :=
  { id := nid,
    homeTeamName := if hn ≠ "" then hn else "Equipo A",
    awayTeamName := if an ≠ "" then an else "Equipo B",
    homePlayerIds := his, awayPlayerIds := ais,
    homeScore := 0, awayScore := 0, date := now,
    isFinished := false, events := [], aiAnalysis := none }

/-- The finished match built by `finishMatch`. -/
def finishMatchM (m : Match) (report : String) : Match :=
  { m with isFinished := true, aiAnalysis := some report }

/-- Controller state: the persisted match collection and `activeMatchId`. -/
structure AppState where
  store : List Match
  activeId : Option String

/-- One user-level lifecycle operation.  `start` carries the draft data
plus the generated id and timestamp; `recordEvent` carries the event
parameters plus the random draw; `finish` carries the generated report. -/
inductive Op
  | start (homeName awayName : String) (homeIds awayIds : List String)
      (newId : String) (now : Nat)
  | recordEvent (t : EventType) (side : Side) (pid eid : String)
      (r : ℚ) (ts : Nat)
  | finish (report : String)

/-- One step of the lifecycle controller.

* `start` is a no-op when a side list is empty (the handler alerts and
  returns) and when a match is active (the UI only exposes team drafting
  while no match is active); otherwise it persists the new unfinished
  match via `add` and makes it active.
* `recordEvent` and `finish` are no-ops when no active match resolves;
  otherwise the looked-up match is updated and persisted via `update`,
  and `finish` clears the active-match tracking. -/
def step (st : AppState) : Op → AppState
  | .start hn an his ais nid now =>
      if his.isEmpty || ais.isEmpty then st
      else if st.activeId.isSome then st
      else { store := addMatchLocal (newMatchOf hn an his ais nid now) st.store,
             activeId := some nid }
  | .recordEvent t side pid eid r ts =>
      match st.activeId with
      | none => st
      | some i =>
        match st.store.find? (fun m => m.id == i) with
        | none => st
        | some m =>
          { store := updateMatchLocal (addEventMatch m t side pid eid r ts) st.store,
            activeId := st.activeId }
  | .finish report =>
      match st.activeId with
      | none => st
      | some i =>
        match st.store.find? (fun m => m.id == i) with
        | none => st
        | some m =>
          { store := updateMatchLocal (finishMatchM m report) st.store,
            activeId := none }

/-- App load: read the persisted matches (sorted by `list`) and resume
the first unfinished one, if any. -/
def loadState (persisted : List Match) : AppState :=
  { store := persisted,
    activeId := ((getAllMatchesLocal persisted).find?
      (fun m => !m.isFinished)).map (fun m => m.id) }

/-- Run a sequence of lifecycle operations. -/
def runOps (st : AppState) (ops : List Op) : AppState :=
  ops.foldl step st

/-- Well-formed operation sequence: every `start` uses a fresh generated
id (`Date.now().toString()` is modelled as never colliding with an id
already in the store). -/
def freshOk (st : AppState) : Op → Bool
  | .start _ _ _ _ nid _ => !(st.store.any (fun m => m.id == nid))
  | _ => true

def wfOps : AppState → List Op → Bool
  | _, [] => true
  | st, op :: rest => freshOk st op && wfOps (step st op) rest

/-- Number of persisted matches with `finished = false`. -/
def countUnfinished (l : List Match) : Nat :=
  (l.filter (fun m => !m.isFinished)).length

/-- Inductive invariant of the lifecycle controller: ids are unique, and
either no match is active and every persisted match is finished, or a
match is active and every unfinished persisted match carries the active
id. -/
def lifecycleInv (st : AppState) : Prop :=
  (st.store.map (fun m => m.id)).Nodup ∧
  match st.activeId with
  | none => countUnfinished st.store = 0
  | some i => ∀ m ∈ st.store, m.isFinished = false → m.id = i

/-! ## Narrative generator (`services/geminiService.ts`)

`generateMatchReport` is pure except for the one remote text-generation
call; that call's outcome is a parameter `svc` mapping the prompt to
either a thrown error (`Except.error`) or a response whose optional
`text` field is an `Option String`. -/

def apiKeyMsg : String := "API Key no configurada. No se puede generar el reporte."

def emptyRespMsg : String := "No se pudo generar el análisis."

def svcErrorMsg : String := "Error al conectar con la IA para generar el reporte."

/-- `getName`: resolve a player id to a display name, with the defensive
fallback for dangling ids. -/
def getNameIn (players : List Player) (i : String) : String :=
  ((players.find? (fun p => p.id == i)).map (fun p => p.name)).getD
    "Jugador Desconocido"

/-- One line of the chronological rendering of the events. -/
def eventLine (m : Match) (players : List Player) (e : MatchEvent) : String :=
  let playerName := getNameIn players e.playerId
  let teamName := match e.side with
    | .home => m.homeTeamName
    | .away => m.awayTeamName
  let detail :=
    if e.type == .goal && truthyStr e.assistPlayerId then
      eventTypeStr e.type ++ " (Asistencia: " ++
        getNameIn players (e.assistPlayerId.getD "") ++ ")"
    else eventTypeStr e.type
  "- Min " ++ toString e.minute ++ ": " ++ detail ++ " por " ++ playerName ++
    " para " ++ teamName

/-- The deterministic prompt built from team names, final score, the goal
scorers and the chronological event rendering. -/
def promptOf (m : Match) (players : List Player) : String :=
  "\n    Actúa como un narrador de fútbol de barrio apasionado pero analítico. Escribe la crónica de este partido amistoso/amateur.\n    \n    EQUIPOS: "
    ++ m.homeTeamName ++ " vs " ++ m.awayTeamName
    ++ "\n    MARCADOR FINAL: " ++ toString m.homeScore ++ " - "
    ++ toString m.awayScore
    ++ "\n    \n    JUGADORES DESTACADOS (Goleadores):\n    "
    ++ String.intercalate ", "
        ((m.events.filter (fun e => e.type == .goal)).map
          (fun e => getNameIn players e.playerId))
    ++ "\n    \n    CRONOLOGÍA:\n    "
    ++ String.intercalate "\n" (m.events.map (eventLine m players))
    ++ "\n    \n    ESTRUCTURA:\n    1. **Titular**: Divertido o Épico.\n    2. **Resumen**: Cómo se sintió el partido.\n    3. **El MVP**: Quién se lució más (básate en goles/asistencias).\n    4. **El Dato**: Alguna estadística curiosa o táctica simple.\n\n    Formato Markdown. Tono cercano, futbolero español.\n  "

/-- `generateMatchReport`: placeholder when the client is unconfigured
(the service is not called), otherwise the service response's text, with
a thrown error or a missing/empty text mapped to a placeholder. -/
def generateMatchReport (configured : Bool)
    (svc : String → Except Unit (Option String)) (m : Match)
    (players : List Player) : String :=
  if !configured then apiKeyMsg
  else
    match svc (promptOf m players) with
    | .error _ => svcErrorMsg
    | .ok t =>
      match t with
      | some txt => if txt ≠ "" then txt else emptyRespMsg
      | none => emptyRespMsg

/-! ## Sample data (used by witnesses and counterexamples) -/

def pAna : Player :=
  { id := "1", name := "Ana", position := .forward, initialGoals := some 2,
    initialAssists := some 0, initialMatches := some 0 }

def pBeto : Player :=
  { id := "2", name := "Beto", position := .forward, initialGoals := some 5,
    initialAssists := some 0, initialMatches := some 0 }

def pGkA : Player :=
  { id := "g1", name := "Juana", position := .gk, initialGoals := some 0,
    initialSaves := some 10 }

def pGkB : Player :=
  { id := "g2", name := "Rosa", position := .gk, initialGoals := some 6,
    initialSaves := some 0 }

def pFwdC : Player :=
  { id := "f1", name := "Luis", position := .forward, initialGoals := some 5,
    initialSaves := some 0 }

/-- An eventless match with the given id, date and finished flag. -/
def mkSampleMatch (i : String) (d : Nat) (fin : Bool) : Match :=
  { id := i, homeTeamName := "Equipo A", awayTeamName := "Equipo B",
    homePlayerIds := ["1"], awayPlayerIds := ["2"],
    homeScore := 0, awayScore := 0, date := d, isFinished := fin,
    events := [] }

def mA10 : Match := mkSampleMatch "a" 10 true
def mB5 : Match := mkSampleMatch "b" 5 true
def mBv2 : Match := mkSampleMatch "b" 20 true
def mC1 : Match := mkSampleMatch "c" 1 true
def mCv2 : Match := mkSampleMatch "c" 7 true

/-! ## Generic lemmas about the sort and replace models -/

theorem perm_orderedInsertB (le : α → α → Bool) (a : α) (l : List α) :
    List.Perm (orderedInsertB le a l) (a :: l) := by
  induction l with
  | nil => exact List.Perm.refl _
  | cons x xs ih =>
    simp only [orderedInsertB]
    by_cases h : le a x = true
    · simp [h]
    · simp only [h, if_false]
      exact (ih.cons x).trans (List.Perm.swap a x xs)

theorem perm_sortBy (le : α → α → Bool) (l : List α) :
    List.Perm (sortBy le l) l := by
  induction l with
  | nil => exact List.Perm.refl _
  | cons x xs ih =>
    exact (perm_orderedInsertB le x (sortBy le xs)).trans (ih.cons x)

theorem mem_sortBy {le : α → α → Bool} {l : List α} {a : α} :
    a ∈ sortBy le l ↔ a ∈ l :=
  (perm_sortBy le l).mem_iff

theorem length_sortBy (le : α → α → Bool) (l : List α) :
    (sortBy le l).length = l.length :=
  (perm_sortBy le l).length_eq

theorem mem_orderedInsertB {le : α → α → Bool} {l : List α} {a b : α} :
    b ∈ orderedInsertB le a l ↔ b = a ∨ b ∈ l := by
  rw [(perm_orderedInsertB le a l).mem_iff, List.mem_cons]

theorem pairwise_orderedInsertB {le : α → α → Bool} {a : α} {l : List α}
    (hl : l.Pairwise (fun x y => le x y = true))
    (htot : ∀ b ∈ l, le a b = false → le b a = true)
    (htr : ∀ x ∈ l, ∀ y ∈ l, le a x = true → le x y = true → le a y = true) :
    (orderedInsertB le a l).Pairwise (fun x y => le x y = true) := by
  induction l with
  | nil => simp [orderedInsertB]
  | cons x xs ih =>
    simp only [orderedInsertB]
    rcases List.pairwise_cons.1 hl with ⟨hx, hxs⟩
    by_cases h : le a x = true
    · simp only [h, if_true]
      refine List.pairwise_cons.2 ⟨?_, hl⟩
      intro y hy
      rcases List.mem_cons.1 hy with rfl | hy'
      · exact h
      · exact htr x (List.mem_cons_self _ _) y (List.mem_cons_of_mem _ hy') h (hx y hy')
    · simp only [eq_false_of_ne_true h, if_false]
      refine List.pairwise_cons.2 ⟨?_, ?_⟩
      · intro y hy
        rcases mem_orderedInsertB.1 hy with rfl | hy'
        · exact htot x (List.mem_cons_self _ _) (eq_false_of_ne_true h)
        · exact hx y hy'
      · exact ih hxs
          (fun b hb hf => htot b (List.mem_cons_of_mem _ hb) hf)
          (fun u hu v hv h1 h2 =>
            htr u (List.mem_cons_of_mem _ hu) v (List.mem_cons_of_mem _ hv) h1 h2)

theorem pairwise_sortBy {le : α → α → Bool} {l : List α}
    (htot : ∀ x ∈ l, ∀ y ∈ l, le x y = false → le y x = true)
    (htr : ∀ x ∈ l, ∀ y ∈ l, ∀ z ∈ l,
      le x y = true → le y z = true → le x z = true) :
    (sortBy le l).Pairwise (fun x y => le x y = true) := by
  induction l with
  | nil => simp [sortBy]
  | cons x xs ih =>
    simp only [sortBy]
    refine pairwise_orderedInsertB ?_ ?_ ?_
    · exact ih
        (fun u hu v hv => htot u (List.mem_cons_of_mem _ hu) v (List.mem_cons_of_mem _ hv))
        (fun u hu v hv w hw => htr u (List.mem_cons_of_mem _ hu) v
          (List.mem_cons_of_mem _ hv) w (List.mem_cons_of_mem _ hw))
    · intro b hb hf
      exact htot x (List.mem_cons_self _ _) b
        (List.mem_cons_of_mem _ (mem_sortBy.1 hb)) hf
    · intro u hu v hv h1 h2
      exact htr x (List.mem_cons_self _ _) u
        (List.mem_cons_of_mem _ (mem_sortBy.1 hu)) v
        (List.mem_cons_of_mem _ (mem_sortBy.1 hv)) h1 h2

theorem sortBy_eq_self_of_pairwise {le : α → α → Bool} {l : List α}
    (h : l.Pairwise (fun x y => le x y = true)) : sortBy le l = l := by
  induction l with
  | nil => rfl
  | cons x xs ih =>
    rcases List.pairwise_cons.1 h with ⟨hx, hxs⟩
    simp only [sortBy, ih hxs]
    cases xs with
    | nil => rfl
    | cons y ys =>
      simp [orderedInsertB, hx y (List.mem_cons_self _ _)]

theorem mem_replaceFirstBy {p : α → Bool} {a b : α} {l : List α}
    (hb : b ∈ replaceFirstBy p a l) : b = a ∨ b ∈ l := by
  induction l with
  | nil => simp [replaceFirstBy] at hb
  | cons x xs ih =>
    simp only [replaceFirstBy] at hb
    by_cases h : p x = true
    · rw [if_pos h] at hb
      cases List.mem_cons.1 hb with
      | inl h1 => exact Or.inl h1
      | inr h1 => exact Or.inr (List.mem_cons_of_mem _ h1)
    · rw [if_neg h] at hb
      cases List.mem_cons.1 hb with
      | inl h1 => exact Or.inr (h1 ▸ List.mem_cons_self _ _)
      | inr h1 =>
        cases ih h1 with
        | inl h2 => exact Or.inl h2
        | inr h2 => exact Or.inr (List.mem_cons_of_mem _ h2)

theorem replaceFirstBy_of_forall_eq {p : α → Bool} {a : α} {l : List α}
    (h : ∀ x ∈ l, p x = true → x = a) : replaceFirstBy p a l = l := by
  induction l with
  | nil => rfl
  | cons x xs ih =>
    simp only [replaceFirstBy]
    by_cases hx : p x = true
    · rw [if_pos hx, h x (List.mem_cons_self _ _) hx]
    · rw [if_neg hx, ih (fun y hy hp => h y (List.mem_cons_of_mem _ hy) hp)]

theorem replaceFirstBy_idem {p : α → Bool} {a : α} (hpa : p a = true)
    (l : List α) :
    replaceFirstBy p a (replaceFirstBy p a l) = replaceFirstBy p a l := by
  induction l with
  | nil => rfl
  | cons x xs ih =>
    simp only [replaceFirstBy]
    by_cases hx : p x = true
    · rw [if_pos hx]
      simp [replaceFirstBy, hpa]
    · rw [if_neg hx]
      simp only [replaceFirstBy, if_neg hx, ih]

theorem mem_replaceFirstBy_self {p : α → Bool} {a : α} {l : List α}
    (h : ∃ x ∈ l, p x = true) : a ∈ replaceFirstBy p a l := by
  induction l with
  | nil => simp at h
  | cons x xs ih =>
    simp only [replaceFirstBy]
    by_cases hx : p x = true
    · rw [if_pos hx]; exact List.mem_cons_self _ _
    · rw [if_neg hx]
      rcases h with ⟨y, hy, hpy⟩
      rcases List.mem_cons.1 hy with rfl | hy'
      · exact absurd hpy hx
      · exact List.mem_cons_of_mem _ (ih ⟨y, hy', hpy⟩)

theorem map_replaceFirstBy_key {β : Type} {p : α → Bool} {a : α} {l : List α}
    (key : α → β) (h : ∀ x ∈ l, p x = true → key x = key a) :
    (replaceFirstBy p a l).map key = l.map key := by
  induction l with
  | nil => rfl
  | cons x xs ih =>
    simp only [replaceFirstBy]
    by_cases hx : p x = true
    · rw [if_pos hx]
      simp [h x (List.mem_cons_self _ _) hx]
    · rw [if_neg hx]
      simp only [List.map_cons]
      rw [ih (fun y hy hp => h y (List.mem_cons_of_mem _ hy) hp)]

theorem filter_replaceFirstBy {p q : α → Bool} {a : α} {l : List α}
    (hpq : ∀ x, p x = true → q x = false) (hqa : q a = false) :
    (replaceFirstBy p a l).filter q = l.filter q := by
  induction l with
  | nil => rfl
  | cons x xs ih =>
    simp only [replaceFirstBy]
    by_cases hx : p x = true
    · rw [if_pos hx]
      simp [List.filter_cons, hqa, hpq x hx]
    · rw [if_neg hx]
      simp [List.filter_cons, ih]

/-! ## Helper lemmas about the date sort -/

theorem pairwise_sortMatches (sm : List Match) :
    (sortBy matchDateLe sm).Pairwise (fun a b => matchDateLe a b = true) :=
  pairwise_sortBy
    (fun x _ y _ hf => by
      simp only [matchDateLe, decide_eq_true_eq, decide_eq_false_iff_not] at hf ⊢
      omega)
    (fun x _ y _ z _ h1 h2 => by
      simp only [matchDateLe, decide_eq_true_eq] at h1 h2 ⊢
      omega)

theorem sortMatches_idem (sm : List Match) :
    sortBy matchDateLe (sortBy matchDateLe sm) = sortBy matchDateLe sm :=
  sortBy_eq_self_of_pairwise (pairwise_sortMatches sm)

/-! ## Claim C4: local-backend add/list and delete/list round trips -/

/-- C4: for every local-backend stored collection and entity `e`, after
`add(e)` the result of `list()` contains an entity equal to `e`, and after
`delete(e.id)` the result of `list()` contains no entity with that id
(for both the player and the match collections). -/
theorem claim_C4_roundtrip :
    ∀ (sp : List Player) (p : Player) (i : String)
      (sm : List Match) (m : Match) (j : String),
      p ∈ getAllPlayersLocal (addPlayerLocal p sp) ∧
      (∀ q ∈ getAllPlayersLocal (deletePlayerLocal i sp), q.id ≠ i) ∧
      m ∈ getAllMatchesLocal (addMatchLocal m sm) ∧
      (∀ q ∈ getAllMatchesLocal (deleteMatchLocal j sm), q.id ≠ j) := by
  intro sp p i sm m j
  refine ⟨?_, ?_, ?_, ?_⟩
  · simp [getAllPlayersLocal, addPlayerLocal]
  · intro q hq
    simp only [getAllPlayersLocal, deletePlayerLocal] at hq
    have h1 := (List.mem_filter.1 hq).2
    simpa using h1
  · exact mem_sortBy.2 (by simp [addMatchLocal])
  · intro q hq
    simp only [getAllMatchesLocal, deleteMatchLocal] at hq
    have h1 := (List.mem_filter.1 (mem_sortBy.1 hq)).2
    simpa using h1

/-- C4 witness at concrete data. -/
theorem claim_C4_roundtrip_witness :
    pAna ∈ getAllPlayersLocal (addPlayerLocal pAna [pBeto]) ∧
    pBeto.id ≠ "zz" := by
  have h := claim_C4_roundtrip [pBeto] pAna "zz" [] mA10 "zz"
  exact ⟨h.1, h.2.1 pBeto (by decide)⟩

/-! ## Claim C6: `list()` for matches is sorted by date descending -/

/-- C6: for every stored match collection, the local-backend `list()`
returns the matches sorted by date descending. -/
theorem claim_C6_matches_sorted :
    ∀ sm : List Match,
      (getAllMatchesLocal sm).Pairwise (fun a b => b.date ≤ a.date) := by
  intro sm
  exact (pairwise_sortMatches sm).imp (fun hxy => by simpa [matchDateLe] using hxy)

/-! ## Claim C9: recorded event minutes lie in [1, 90] -/

/-- C9: every event created by recording an event has a minute in
`[1, 90]`: for a random draw `0 ≤ r < 1` the assigned minute
`⌊r * 90⌋ + 1` lies in the closed interval, so every event of the
updated match is either an old event or has its minute in `[1, 90]`. -/
theorem claim_C9_minute_range :
    ∀ (m : Match) (t : EventType) (side : Side) (pid eid : String)
      (r : ℚ) (ts : Nat),
      0 ≤ r → r < 1 →
      ∀ e ∈ (addEventMatch m t side pid eid r ts).events,
        e ∈ m.events ∨ (1 ≤ e.minute ∧ e.minute ≤ 90) := by
  intro m t side pid eid r ts h0 h1 e he
  have hev : (addEventMatch m t side pid eid r ts).events
      = mkEvent m t side pid eid r ts :: m.events := rfl
  rw [hev] at he
  rcases List.mem_cons.1 he with rfl | hold
  · right
    constructor
    · show 1 ≤ jsMinute r
      have : (0 : Int) ≤ ⌊r * 90⌋ := by
        apply Int.floor_nonneg.2
        positivity
      unfold jsMinute
      omega
    · show jsMinute r ≤ 90
      have : ⌊r * 90⌋ < (90 : Int) := by
        apply Int.floor_lt.2
        push_cast
        nlinarith
      unfold jsMinute
      omega
  · exact Or.inl hold

/-- C9 witness at the draw `r = 1/2`. -/
theorem claim_C9_minute_range_witness :
    mkEvent mA10 .goal .home "1" "e1" (1/2) 0 ∈ mA10.events ∨
      (1 ≤ (mkEvent mA10 .goal .home "1" "e1" (1/2) 0).minute ∧
        (mkEvent mA10 .goal .home "1" "e1" (1/2) 0).minute ≤ 90) :=
  claim_C9_minute_range mA10 .goal .home "1" "e1" (1/2) 0
    (by norm_num) (by norm_num)
    (mkEvent mA10 .goal .home "1" "e1" (1/2) 0)
    (List.mem_cons_self _ _)

/-! ## Claim C8: the narrative generator always returns a string -/

/-- C8: the narrative generator returns a string on every path: when the
client is unconfigured it returns the fixed placeholder independently of
the service; a thrown service error and a missing or empty response text
are mapped to placeholder strings; a non-empty response text is returned
as-is. -/
theorem claim_C8_total_report :
    ∀ (m : Match) (players : List Player)
      (svc : String → Except Unit (Option String)),
      generateMatchReport false svc m players = apiKeyMsg ∧
      (svc (promptOf m players) = .error () →
        generateMatchReport true svc m players = svcErrorMsg) ∧
      (svc (promptOf m players) = .ok none →
        generateMatchReport true svc m players = emptyRespMsg) ∧
      (svc (promptOf m players) = .ok (some "") →
        generateMatchReport true svc m players = emptyRespMsg) ∧
      (∀ s : String, s ≠ "" → svc (promptOf m players) = .ok (some s) →
        generateMatchReport true svc m players = s) := by
  intro m players svc
  refine ⟨rfl, ?_, ?_, ?_, ?_⟩
  · intro h
    simp [generateMatchReport, h]
  · intro h
    simp [generateMatchReport, h]
  · intro h
    simp [generateMatchReport, h]
  · intro s hs h
    simp [generateMatchReport, h, hs]

/-- C8 witness: a service that throws yields the error placeholder. -/
theorem claim_C8_total_report_witness :
    generateMatchReport true (fun _ => Except.error ()) mA10 [] = svcErrorMsg :=
  (claim_C8_total_report mA10 [] (fun _ => Except.error ())).2.1 rfl

/-! ## Claim C5: recording an event -/

/-- C5: recording an event on the active match prepends exactly one new
event to the front of the event list (leaving all previously recorded
events unchanged), increments the recording side's score exactly when the
event type is Goal, leaves the other side's score unchanged, and the
controller persists the full updated match via `update`. -/
theorem claim_C5_record_event :
    ∀ (m : Match) (t : EventType) (side : Side) (pid eid : String)
      (r : ℚ) (ts : Nat),
      (addEventMatch m t side pid eid r ts).events
          = mkEvent m t side pid eid r ts :: m.events ∧
      scoreOf side (addEventMatch m t side pid eid r ts)
          = scoreOf side m + (if t = .goal then 1 else 0) ∧
      scoreOf (otherSide side) (addEventMatch m t side pid eid r ts)
          = scoreOf (otherSide side) m ∧
      (∀ (st : AppState) (i : String),
        st.activeId = some i →
        st.store.find? (fun q => q.id == i) = some m →
        (step st (Op.recordEvent t side pid eid r ts)).store
            = updateMatchLocal (addEventMatch m t side pid eid r ts) st.store ∧
        (step st (Op.recordEvent t side pid eid r ts)).activeId = st.activeId) := by
  intro m t side pid eid r ts
  refine ⟨rfl, ?_, ?_, ?_⟩
  · cases side <;> cases t <;> simp [addEventMatch, scoreOf]
  · cases side <;> cases t <;> simp [addEventMatch, scoreOf, otherSide]
  · intro st i hact hfind
    constructor <;> simp [step, hact, hfind]

/-- C5 witness at concrete data. -/
theorem claim_C5_record_event_witness :
    (step ⟨[mA10], some "a"⟩ (Op.recordEvent .goal .home "1" "e1" 0 0)).store
        = updateMatchLocal (addEventMatch mA10 .goal .home "1" "e1" 0 0) [mA10] ∧
    (step ⟨[mA10], some "a"⟩ (Op.recordEvent .goal .home "1" "e1" 0 0)).activeId
        = some "a" :=
  (claim_C5_record_event mA10 .goal .home "1" "e1" 0 0).2.2.2
    ⟨[mA10], some "a"⟩ "a" rfl (by decide)

/-! ## Claim C7: idempotence of `update` -/

/-- C7 counterexample: on the match collection the claim fails as stated.
With stored matches `[a (date 10), b (date 5)]`, updating `b` to a copy
with date 20 twice leaves the persisted array `[b', a]`, while updating
once leaves `[a, b']` — the persisted states differ (the second update
re-sorts the stored collection). -/
theorem claim_C7_counterexample :
    updateMatchLocal mBv2 (updateMatchLocal mBv2 [mA10, mB5])
      ≠ updateMatchLocal mBv2 [mA10, mB5] := by
  decide

/-- C7 amended: `updatePlayer` is exactly idempotent on the persisted
collection; `updateMatch` is idempotent only up to reordering — when ids
are unique, the persisted collections after one and after two updates are
permutations of each other and `list()` returns the same result for both,
but the stored arrays themselves can differ (see the counterexample). -/
theorem claim_C7_amended :
    (∀ (sp : List Player) (p : Player),
      updatePlayerLocal p (updatePlayerLocal p sp) = updatePlayerLocal p sp) ∧
    (∀ (sm : List Match) (m : Match), (sm.map (fun q => q.id)).Nodup →
      List.Perm (updateMatchLocal m (updateMatchLocal m sm))
          (updateMatchLocal m sm) ∧
      getAllMatchesLocal (updateMatchLocal m (updateMatchLocal m sm))
          = getAllMatchesLocal (updateMatchLocal m sm)) := by
  constructor
  · intro sp p
    exact replaceFirstBy_idem (by simp) sp
  · intro sm m hnd
    by_cases hany : sm.any (fun q => q.id == m.id) = true
    · have hu1 : updateMatchLocal m sm
          = replaceFirstBy (fun q => q.id == m.id) m (sortBy matchDateLe sm) := by
        simp only [updateMatchLocal, getAllMatchesLocal, if_pos hany]
      set u1 := replaceFirstBy (fun q => q.id == m.id) m (sortBy matchDateLe sm)
        with hu1def
      have hids : u1.map (fun q => q.id) = (sortBy matchDateLe sm).map (fun q => q.id) :=
        map_replaceFirstBy_key _ (fun x _ hx => by simpa using hx)
      have hndu1 : (u1.map (fun q => q.id)).Nodup := by
        rw [hids]
        exact (((perm_sortBy matchDateLe sm).map (fun q => q.id)).nodup_iff).2 hnd
      have hm_u1 : m ∈ u1 := by
        rcases List.any_eq_true.1 hany with ⟨x, hx, hpx⟩
        exact mem_replaceFirstBy_self ⟨x, mem_sortBy.2 hx, hpx⟩
      have hany2 : u1.any (fun q => q.id == m.id) = true :=
        List.any_eq_true.2 ⟨m, hm_u1, by simp⟩
      have hu2 : updateMatchLocal m u1
          = replaceFirstBy (fun q => q.id == m.id) m (sortBy matchDateLe u1) := by
        simp only [updateMatchLocal, getAllMatchesLocal, if_pos hany2]
      have hfix : replaceFirstBy (fun q => q.id == m.id) m (sortBy matchDateLe u1)
          = sortBy matchDateLe u1 := by
        apply replaceFirstBy_of_forall_eq
        intro x hx hpx
        have hxu1 : x ∈ u1 := mem_sortBy.1 hx
        exact List.inj_on_of_nodup_map hndu1 hxu1 hm_u1 (by simpa using hpx)
      rw [hu1, hu2, hfix]
      exact ⟨perm_sortBy matchDateLe u1,
        by simp only [getAllMatchesLocal, sortMatches_idem]⟩
    · have h1 : updateMatchLocal m sm = sm := by
        simp only [updateMatchLocal, if_neg hany]
      rw [h1, h1]
      exact ⟨List.Perm.refl _, rfl⟩

/-- C7 amended witness at concrete data (unique ids). -/
theorem claim_C7_amended_witness :
    List.Perm (updateMatchLocal mBv2 (updateMatchLocal mBv2 [mA10, mB5]))
        (updateMatchLocal mBv2 [mA10, mB5]) ∧
    getAllMatchesLocal (updateMatchLocal mBv2 (updateMatchLocal mBv2 [mA10, mB5]))
        = getAllMatchesLocal (updateMatchLocal mBv2 [mA10, mB5]) :=
  claim_C7_amended.2 [mA10, mB5] mBv2 (by decide)

/-! ## Claim C10: mutations touch only the target entity -/

/-- C10 counterexample: `updateMatch` does not leave the other stored
matches in their original relative order.  With stored matches
`[b (date 5), a (date 10), c (date 1)]`, updating `c` rewrites the
collection date-sorted, so the non-target entries come back as `[a, b]`
instead of the original `[b, a]`. -/
theorem claim_C10_counterexample :
    (updateMatchLocal mCv2 [mB5, mA10, mC1]).filter (fun q => q.id != "c")
      ≠ [mB5, mA10, mC1].filter (fun q => q.id != "c") := by
  decide

/-- C10 amended: `updatePlayer` and `deletePlayer` leave every other
stored player unchanged and in the same relative order; `updateMatch` and
`deleteMatch` leave the other stored matches unchanged as a multiset (no
other entity is modified, added or removed) but rewrite the collection
sorted by date descending, so the relative order of untouched matches can
change. -/
theorem claim_C10_amended :
    (∀ (sp : List Player) (p : Player),
      (updatePlayerLocal p sp).filter (fun q => q.id != p.id)
        = sp.filter (fun q => q.id != p.id)) ∧
    (∀ (sp : List Player) (i : String),
      (deletePlayerLocal i sp).filter (fun q => q.id != i)
        = sp.filter (fun q => q.id != i)) ∧
    (∀ (sm : List Match) (m : Match),
      List.Perm ((updateMatchLocal m sm).filter (fun q => q.id != m.id))
        (sm.filter (fun q => q.id != m.id))) ∧
    (∀ (sm : List Match) (i : String),
      List.Perm ((deleteMatchLocal i sm).filter (fun q => q.id != i))
        (sm.filter (fun q => q.id != i))) := by
  refine ⟨?_, ?_, ?_, ?_⟩
  · intro sp p
    exact filter_replaceFirstBy (fun x hx => by simpa using hx) (by simp)
  · intro sp i
    simp [deletePlayerLocal, getAllPlayersLocal, List.filter_filter]
  · intro sm m
    by_cases hany : sm.any (fun q => q.id == m.id) = true
    · have h1 : updateMatchLocal m sm
          = replaceFirstBy (fun q => q.id == m.id) m (sortBy matchDateLe sm) := by
        simp only [updateMatchLocal, getAllMatchesLocal, if_pos hany]
      rw [h1, filter_replaceFirstBy (fun x hx => by simpa using hx) (by simp)]
      exact (perm_sortBy matchDateLe sm).filter _
    · have h1 : updateMatchLocal m sm = sm := by
        simp only [updateMatchLocal, if_neg hany]
      rw [h1]
  · intro sm i
    have h1 : (deleteMatchLocal i sm).filter (fun q => q.id != i)
        = (sortBy matchDateLe sm).filter (fun q => q.id != i) := by
      simp [deleteMatchLocal, getAllMatchesLocal, List.filter_filter]
    rw [h1]
    exact (perm_sortBy matchDateLe sm).filter _

/-! ## Claim C2: leaderboard ordering of the players-only aggregator

The comparator compares goalkeeper pairs by saves and every other pair by
goals.  It is total but not transitive across mixed lists, so the claimed
pairwise ordering cannot hold in general. -/

theorem poLe_eq_saves {a b : POEntry} (ha : a.player.position = Position.gk)
    (hb : b.player.position = Position.gk) :
    poLe a b = decide (b.saves ≤ a.saves) := by
  have hc : (a.player.position == Position.gk &&
      b.player.position == Position.gk) = true := by simp [ha, hb]
  unfold poLe
  rw [if_pos hc]

theorem poLe_eq_goals {a b : POEntry}
    (h : ¬(a.player.position = Position.gk ∧ b.player.position = Position.gk)) :
    poLe a b = decide (b.goals ≤ a.goals) := by
  have hc : ¬((a.player.position == Position.gk &&
      b.player.position == Position.gk) = true) := by
    simp only [Bool.and_eq_true, beq_iff_eq]
    exact h
  unfold poLe
  rw [if_neg hc]

theorem poLe_total (a b : POEntry) (hf : poLe a b = false) : poLe b a = true := by
  by_cases hc : a.player.position = Position.gk ∧ b.player.position = Position.gk
  · rw [poLe_eq_saves hc.1 hc.2] at hf
    rw [poLe_eq_saves hc.2 hc.1]
    simp at hf ⊢
    omega
  · have hc' : ¬(b.player.position = Position.gk ∧
        a.player.position = Position.gk) := fun h => hc ⟨h.2, h.1⟩
    rw [poLe_eq_goals hc] at hf
    rw [poLe_eq_goals hc']
    simp at hf ⊢
    omega

theorem claimPairOK_of_poLe {a b : POEntry} (h : poLe a b = true) :
    claimPairOK a b := by
  constructor
  · intro hnot
    rw [poLe_eq_goals hnot] at h
    simpa using h
  · intro hboth
    rw [poLe_eq_saves hboth.1 hboth.2] at h
    simpa using h

theorem poLe_trans_of_allGK {l : List POEntry}
    (h : ∀ a ∈ l, a.player.position = Position.gk) :
    ∀ x ∈ l, ∀ y ∈ l, ∀ z ∈ l,
      poLe x y = true → poLe y z = true → poLe x z = true := by
  intro x hx y hy z hz h1 h2
  rw [poLe_eq_saves (h x hx) (h y hy)] at h1
  rw [poLe_eq_saves (h y hy) (h z hz)] at h2
  rw [poLe_eq_saves (h x hx) (h z hz)]
  simp at h1 h2 ⊢
  omega

theorem poLe_trans_of_uniqueGK {l : List POEntry}
    (h : ∀ a ∈ l, ∀ b ∈ l, a.player.position = Position.gk →
      b.player.position = Position.gk → a = b) :
    ∀ x ∈ l, ∀ y ∈ l, ∀ z ∈ l,
      poLe x y = true → poLe y z = true → poLe x z = true := by
  intro x hx y hy z hz h1 h2
  by_cases gx : x.player.position = Position.gk <;>
    by_cases gy : y.player.position = Position.gk <;>
      by_cases gz : z.player.position = Position.gk
  · rw [poLe_eq_saves gx gy] at h1
    rw [poLe_eq_saves gy gz] at h2
    rw [poLe_eq_saves gx gz]
    simp at h1 h2 ⊢
    omega
  · have e1 := h x hx y hy gx gy
    rw [poLe_eq_goals (fun hc => gz hc.2)] at h2 ⊢
    rw [e1]
    exact h2
  · have e1 := h x hx z hz gx gz
    rw [poLe_eq_saves gx gz, e1]
    simp
  · rw [poLe_eq_goals (fun hc => gy hc.2)] at h1
    rw [poLe_eq_goals (fun hc => gy hc.1)] at h2
    rw [poLe_eq_goals (fun hc => gz hc.2)]
    simp at h1 h2 ⊢
    omega
  · have e1 := h y hy z hz gy gz
    rw [poLe_eq_goals (fun hc => gx hc.1)] at h1 ⊢
    rw [← e1]
    exact h1
  · rw [poLe_eq_goals (fun hc => gx hc.1)] at h1 ⊢
    rw [poLe_eq_goals (fun hc => gz hc.2)] at h2
    simp at h1 h2 ⊢
    omega
  · rw [poLe_eq_goals (fun hc => gx hc.1)] at h1 ⊢
    rw [poLe_eq_goals (fun hc => gy hc.1)] at h2
    simp at h1 h2 ⊢
    omega
  · rw [poLe_eq_goals (fun hc => gx hc.1)] at h1 ⊢
    rw [poLe_eq_goals (fun hc => gy hc.1)] at h2
    simp at h1 h2 ⊢
    omega

/-- C2 counterexample: with two goalkeepers (saves 10 / goals 0 and
saves 0 / goals 6) and a forward (goals 5), the pairwise ordering
required by the claim cannot hold: the comparator's required positions
form a cycle, and the produced leaderboard violates the claim. -/
theorem claim_C2_counterexample :
    ¬ (statsPO [pGkA, pGkB, pFwdC]).Pairwise claimPairOK := by
  decide

/-- C2 amended: the claimed pairwise ordering (goalkeeper pairs
descending by saves, all other pairs descending by goals) holds whenever
the player list is position-homogeneous enough for the two-tier
comparator to be transitive: when every player is a goalkeeper, or when
the list contains at most one distinct goalkeeper.  For mixed lists with
two goalkeepers and a field player it fails (see the counterexample). -/
theorem claim_C2_amended :
    ∀ players : List Player,
      ((∀ p ∈ players, p.position = Position.gk) ∨
       (∀ p ∈ players, ∀ q ∈ players,
         p.position = Position.gk → q.position = Position.gk → p = q)) →
      (statsPO players).Pairwise claimPairOK := by
  intro players h
  have htr : ∀ x ∈ players.map mkPOEntry, ∀ y ∈ players.map mkPOEntry,
      ∀ z ∈ players.map mkPOEntry,
      poLe x y = true → poLe y z = true → poLe x z = true := by
    cases h with
    | inl hall =>
      apply poLe_trans_of_allGK
      intro a ha
      rcases List.mem_map.1 ha with ⟨p, hp, rfl⟩
      exact hall p hp
    | inr huniq =>
      apply poLe_trans_of_uniqueGK
      intro a ha b hb hga hgb
      rcases List.mem_map.1 ha with ⟨p, hp, rfl⟩
      rcases List.mem_map.1 hb with ⟨q, hq, rfl⟩
      rw [huniq p hp q hq hga hgb]
  have key : (statsPO players).Pairwise (fun a b => poLe a b = true) :=
    pairwise_sortBy (fun x _ y _ hf => poLe_total x y hf) htr
  exact key.imp claimPairOK_of_poLe

/-- C2 amended witness: an all-goalkeeper list. -/
theorem claim_C2_amended_witness :
    (statsPO [pGkA, pGkB]).Pairwise claimPairOK :=
  claim_C2_amended [pGkA, pGkB] (Or.inl (by decide))

/-! ## Claim C1: matches-variant aggregator -/

theorem upsertKey_eq_append {k : String} {v : StatRec}
    {s : List (String × StatRec)} (h : ∀ kv ∈ s, kv.1 ≠ k) :
    upsertKey k v s = s ++ [(k, v)] := by
  induction s with
  | nil => rfl
  | cons kv rest ih =>
    obtain ⟨k', v'⟩ := kv
    simp only [upsertKey]
    have hne : ¬((k' == k) = true) := by
      simpa using h (k', v') (List.mem_cons_self _ _)
    rw [if_neg hne, ih (fun kv hkv => h kv (List.mem_cons_of_mem _ hkv))]
    simp

theorem foldl_upsert_fresh (players : List Player) :
    ∀ s : List (String × StatRec),
    (∀ p ∈ players, ∀ kv ∈ s, kv.1 ≠ p.id) →
    (players.map (fun p => p.id)).Nodup →
    players.foldl (fun s p => upsertKey p.id (initRec p) s) s
      = s ++ players.map (fun p => (p.id, initRec p)) := by
  induction players with
  | nil => intro s _ _; simp
  | cons p rest ih =>
    intro s hfresh hnd
    simp only [List.map_cons, List.nodup_cons] at hnd
    simp only [List.foldl_cons]
    rw [upsertKey_eq_append (fun kv hkv => hfresh p (List.mem_cons_self _ _) kv hkv)]
    rw [ih (s ++ [(p.id, initRec p)]) ?_ hnd.2]
    · simp
    · intro q hq kv hkv
      rcases List.mem_append.1 hkv with hkv' | hkv'
      · exact hfresh q (List.mem_cons_of_mem _ hq) kv hkv'
      · have hkv'' : kv = (p.id, initRec p) := by simpa using hkv'
        rw [hkv'']
        intro hcon
        have hcon' : q.id = p.id := (show p.id = q.id from hcon).symm
        exact hnd.1 (hcon' ▸ List.mem_map.2 ⟨q, hq, rfl⟩)

theorem seedStats_eq {players : List Player}
    (hnd : (players.map (fun p => p.id)).Nodup) :
    seedStats players = players.map (fun p => (p.id, initRec p)) := by
  unfold seedStats
  rw [foldl_upsert_fresh players [] (by simp) hnd]
  simp

theorem lookupKey_map_initRec {players : List Player}
    (hnd : (players.map (fun p => p.id)).Nodup) {p : Player}
    (hp : p ∈ players) :
    lookupKey p.id (players.map (fun q => (q.id, initRec q)))
      = some (initRec p) := by
  induction players with
  | nil => cases hp
  | cons q rest ih =>
    simp only [List.map_cons, List.nodup_cons] at hnd
    simp only [List.map_cons, lookupKey]
    by_cases hq : (q.id == p.id) = true
    · rw [if_pos hq]
      rcases List.mem_cons.1 hp with rfl | hp'
      · rfl
      · exfalso
        have h1 : q.id = p.id := by simpa using hq
        exact hnd.1 (h1 ▸ List.mem_map.2 ⟨p, hp', rfl⟩)
    · rw [if_neg hq]
      rcases List.mem_cons.1 hp with rfl | hp'
      · exact absurd (by simp) hq
      · exact ih hnd.2 hp'

theorem lookupKey_bumpWith (f : StatRec → StatRec) (k j : String)
    (s : List (String × StatRec)) :
    lookupKey j (bumpWith f k s)
      = if j = k then (lookupKey j s).map f else lookupKey j s := by
  induction s with
  | nil => by_cases h : j = k <;> simp [bumpWith, lookupKey, h]
  | cons kv rest ih =>
    obtain ⟨k', v'⟩ := kv
    simp only [bumpWith]
    by_cases hk : (k' == k) = true
    · rw [if_pos hk]
      have hk' : k' = k := by simpa using hk
      subst hk'
      simp only [lookupKey]
      by_cases hj : (k' == j) = true
      · have hjk : j = k' := (by simpa using hj : k' = j).symm
        rw [if_pos hj, if_pos hjk, if_pos hj]
        simp
      · have hjk : ¬(j = k') := fun h => hj (by simp [h])
        rw [if_neg hj, if_neg hjk, if_neg hj]
    · rw [if_neg hk]
      simp only [lookupKey]
      by_cases hj : (k' == j) = true
      · have hj' : k' = j := by simpa using hj
        have hjk : ¬(j = k) := fun h => hk (by simp [hj'.trans h])
        rw [if_pos hj, if_neg hjk, if_pos hj]
      · rw [if_neg hj, if_neg hj, ih]

theorem hasKey_bumpWith (f : StatRec → StatRec) (k j : String)
    (s : List (String × StatRec)) :
    hasKey j (bumpWith f k s) = hasKey j s := by
  unfold hasKey
  rw [lookupKey_bumpWith]
  by_cases h : j = k
  · rw [if_pos h]
    cases lookupKey j s <;> simp
  · rw [if_neg h]

theorem goalsVal_bumpWith_pres {f : StatRec → StatRec} {k j : String}
    {s : List (String × StatRec)} (hf : ∀ r, (f r).goals = r.goals) :
    goalsVal j (bumpWith f k s) = goalsVal j s := by
  unfold goalsVal
  rw [lookupKey_bumpWith]
  by_cases h : j = k
  · rw [if_pos h]
    cases lookupKey j s <;> simp [hf]
  · rw [if_neg h]

theorem assistsVal_bumpWith_pres {f : StatRec → StatRec} {k j : String}
    {s : List (String × StatRec)} (hf : ∀ r, (f r).assists = r.assists) :
    assistsVal j (bumpWith f k s) = assistsVal j s := by
  unfold assistsVal
  rw [lookupKey_bumpWith]
  by_cases h : j = k
  · rw [if_pos h]
    cases lookupKey j s <;> simp [hf]
  · rw [if_neg h]

theorem matchesVal_bumpWith_pres {f : StatRec → StatRec} {k j : String}
    {s : List (String × StatRec)} (hf : ∀ r, (f r).matchesPlayed = r.matchesPlayed) :
    matchesVal j (bumpWith f k s) = matchesVal j s := by
  unfold matchesVal
  rw [lookupKey_bumpWith]
  by_cases h : j = k
  · rw [if_pos h]
    cases lookupKey j s <;> simp [hf]
  · rw [if_neg h]

theorem goalsVal_bumpWith_ne {f : StatRec → StatRec} {k j : String}
    {s : List (String × StatRec)} (h : j ≠ k) :
    goalsVal j (bumpWith f k s) = goalsVal j s := by
  unfold goalsVal
  rw [lookupKey_bumpWith, if_neg h]

theorem assistsVal_bumpWith_ne {f : StatRec → StatRec} {k j : String}
    {s : List (String × StatRec)} (h : j ≠ k) :
    assistsVal j (bumpWith f k s) = assistsVal j s := by
  unfold assistsVal
  rw [lookupKey_bumpWith, if_neg h]

theorem goalsVal_bumpGoals_self {k : String} {s : List (String × StatRec)}
    (h : hasKey k s = true) :
    goalsVal k (bumpWith incGoals k s) = goalsVal k s + 1 := by
  unfold goalsVal
  rw [lookupKey_bumpWith, if_pos rfl]
  unfold hasKey at h
  obtain ⟨r, hr⟩ := Option.isSome_iff_exists.1 h
  rw [hr]
  simp [incGoals]

theorem assistsVal_bumpAssists_self {k : String} {s : List (String × StatRec)}
    (h : hasKey k s = true) :
    assistsVal k (bumpWith incAssists k s) = assistsVal k s + 1 := by
  unfold assistsVal
  rw [lookupKey_bumpWith, if_pos rfl]
  unfold hasKey at h
  obtain ⟨r, hr⟩ := Option.isSome_iff_exists.1 h
  rw [hr]
  simp [incAssists]

theorem matchesVal_bumpMatches_self {k : String} {s : List (String × StatRec)}
    (h : hasKey k s = true) :
    matchesVal k (bumpWith incMatches k s) = matchesVal k s + 1 := by
  unfold matchesVal
  rw [lookupKey_bumpWith, if_pos rfl]
  unfold hasKey at h
  obtain ⟨r, hr⟩ := Option.isSome_iff_exists.1 h
  rw [hr]
  simp [incMatches]

theorem matchesVal_bumpMatches_ne {k j : String} {s : List (String × StatRec)}
    (h : j ≠ k) :
    matchesVal j (bumpWith incMatches k s) = matchesVal j s := by
  unfold matchesVal
  rw [lookupKey_bumpWith, if_neg h]

theorem hasKey_applyEventGoal (s : List (String × StatRec)) (e : MatchEvent)
    (j : String) : hasKey j (applyEventGoal s e) = hasKey j s := by
  unfold applyEventGoal
  by_cases hc : (e.type == EventType.goal && hasKey e.playerId s) = true
  · rw [if_pos hc]
    exact hasKey_bumpWith _ _ _ _
  · rw [if_neg hc]

theorem goalsVal_applyEventGoal (s : List (String × StatRec)) (e : MatchEvent)
    (pid : String) :
    goalsVal pid (applyEventGoal s e)
      = goalsVal pid s +
        (if e.type = .goal ∧ e.playerId = pid ∧ hasKey pid s = true
          then 1 else 0) := by
  unfold applyEventGoal
  by_cases hc : (e.type == EventType.goal && hasKey e.playerId s) = true
  · have hc' := hc
    simp only [Bool.and_eq_true, beq_iff_eq] at hc'
    obtain ⟨ht, hk⟩ := hc'
    rw [if_pos hc]
    by_cases hp : e.playerId = pid
    · subst hp
      rw [goalsVal_bumpGoals_self hk, if_pos ⟨ht, rfl, hk⟩]
    · rw [goalsVal_bumpWith_ne (fun h => hp h.symm),
        if_neg (fun hcon => hp hcon.2.1)]
      simp
  · rw [if_neg hc, if_neg ?_]
    · simp
    · intro hcon
      apply hc
      obtain ⟨ht, hp, hk⟩ := hcon
      rw [hp]
      simp [ht, hk]

theorem assistsVal_applyEventGoal (s : List (String × StatRec)) (e : MatchEvent)
    (pid : String) :
    assistsVal pid (applyEventGoal s e) = assistsVal pid s := by
  unfold applyEventGoal
  by_cases hc : (e.type == EventType.goal && hasKey e.playerId s) = true
  · rw [if_pos hc]
    exact assistsVal_bumpWith_pres (fun r => rfl)
  · rw [if_neg hc]

theorem matchesVal_applyEventGoal (s : List (String × StatRec)) (e : MatchEvent)
    (pid : String) :
    matchesVal pid (applyEventGoal s e) = matchesVal pid s := by
  unfold applyEventGoal
  by_cases hc : (e.type == EventType.goal && hasKey e.playerId s) = true
  · rw [if_pos hc]
    exact matchesVal_bumpWith_pres (fun r => rfl)
  · rw [if_neg hc]

theorem hasKey_applyEventAssist (s : List (String × StatRec)) (e : MatchEvent)
    (j : String) : hasKey j (applyEventAssist s e) = hasKey j s := by
  unfold applyEventAssist
  cases hak : assistKey e with
  | none => rfl
  | some a =>
    show hasKey j (if e.type == EventType.goal && hasKey a s then
      bumpWith incAssists a s else s) = hasKey j s
    by_cases hc : (e.type == EventType.goal && hasKey a s) = true
    · rw [if_pos hc]
      exact hasKey_bumpWith _ _ _ _
    · rw [if_neg hc]

theorem goalsVal_applyEventAssist (s : List (String × StatRec)) (e : MatchEvent)
    (pid : String) :
    goalsVal pid (applyEventAssist s e) = goalsVal pid s := by
  unfold applyEventAssist
  cases hak : assistKey e with
  | none => rfl
  | some a =>
    show goalsVal pid (if e.type == EventType.goal && hasKey a s then
      bumpWith incAssists a s else s) = goalsVal pid s
    by_cases hc : (e.type == EventType.goal && hasKey a s) = true
    · rw [if_pos hc]
      exact goalsVal_bumpWith_pres (fun r => rfl)
    · rw [if_neg hc]

theorem matchesVal_applyEventAssist (s : List (String × StatRec)) (e : MatchEvent)
    (pid : String) :
    matchesVal pid (applyEventAssist s e) = matchesVal pid s := by
  unfold applyEventAssist
  cases hak : assistKey e with
  | none => rfl
  | some a =>
    show matchesVal pid (if e.type == EventType.goal && hasKey a s then
      bumpWith incAssists a s else s) = matchesVal pid s
    by_cases hc : (e.type == EventType.goal && hasKey a s) = true
    · rw [if_pos hc]
      exact matchesVal_bumpWith_pres (fun r => rfl)
    · rw [if_neg hc]

theorem assistsVal_applyEventAssist (s : List (String × StatRec)) (e : MatchEvent)
    (pid : String) :
    assistsVal pid (applyEventAssist s e)
      = assistsVal pid s +
        (if e.type = .goal ∧ assistKey e = some pid ∧ hasKey pid s = true
          then 1 else 0) := by
  unfold applyEventAssist
  cases hak : assistKey e with
  | none =>
    rw [if_neg (fun hcon => Option.noConfusion hcon.2.1)]
    simp
  | some a =>
    show assistsVal pid (if e.type == EventType.goal && hasKey a s then
        bumpWith incAssists a s else s)
      = assistsVal pid s +
        (if e.type = .goal ∧ some a = some pid ∧ hasKey pid s = true
          then 1 else 0)
    by_cases hc : (e.type == EventType.goal && hasKey a s) = true
    · have hc' := hc
      simp only [Bool.and_eq_true, beq_iff_eq] at hc'
      obtain ⟨ht, hk⟩ := hc'
      rw [if_pos hc]
      by_cases hp : a = pid
      · subst hp
        rw [assistsVal_bumpAssists_self hk, if_pos ⟨ht, rfl, hk⟩]
      · rw [assistsVal_bumpWith_ne (fun h => hp h.symm),
          if_neg (fun hcon => hp (Option.some.inj hcon.2.1))]
        simp
    · rw [if_neg hc, if_neg ?_]
      · simp
      · intro hcon
        apply hc
        obtain ⟨ht, hsome, hk⟩ := hcon
        rw [Option.some.inj hsome]
        simp [ht, hk]

theorem hasKey_applyEvent (s : List (String × StatRec)) (e : MatchEvent)
    (j : String) : hasKey j (applyEvent s e) = hasKey j s := by
  unfold applyEvent
  rw [hasKey_applyEventAssist, hasKey_applyEventGoal]

theorem goalsVal_applyEvent (s : List (String × StatRec)) (e : MatchEvent)
    (pid : String) :
    goalsVal pid (applyEvent s e)
      = goalsVal pid s +
        (if e.type = .goal ∧ e.playerId = pid ∧ hasKey pid s = true
          then 1 else 0) := by
  unfold applyEvent
  rw [goalsVal_applyEventAssist, goalsVal_applyEventGoal]

theorem assistsVal_applyEvent (s : List (String × StatRec)) (e : MatchEvent)
    (pid : String) :
    assistsVal pid (applyEvent s e)
      = assistsVal pid s +
        (if e.type = .goal ∧ assistKey e = some pid ∧ hasKey pid s = true
          then 1 else 0) := by
  unfold applyEvent
  rw [assistsVal_applyEventAssist, assistsVal_applyEventGoal,
    hasKey_applyEventGoal]

theorem matchesVal_applyEvent (s : List (String × StatRec)) (e : MatchEvent)
    (pid : String) :
    matchesVal pid (applyEvent s e) = matchesVal pid s := by
  unfold applyEvent
  rw [matchesVal_applyEventAssist, matchesVal_applyEventGoal]

theorem hasKey_applyParticipant (s : List (String × StatRec)) (q j : String) :
    hasKey j (applyParticipant s q) = hasKey j s := by
  unfold applyParticipant
  by_cases hc : hasKey q s = true
  · rw [if_pos hc]
    exact hasKey_bumpWith _ _ _ _
  · rw [if_neg hc]

theorem goalsVal_applyParticipant (s : List (String × StatRec)) (q pid : String) :
    goalsVal pid (applyParticipant s q) = goalsVal pid s := by
  unfold applyParticipant
  by_cases hc : hasKey q s = true
  · rw [if_pos hc]
    exact goalsVal_bumpWith_pres (fun r => rfl)
  · rw [if_neg hc]

theorem assistsVal_applyParticipant (s : List (String × StatRec)) (q pid : String) :
    assistsVal pid (applyParticipant s q) = assistsVal pid s := by
  unfold applyParticipant
  by_cases hc : hasKey q s = true
  · rw [if_pos hc]
    exact assistsVal_bumpWith_pres (fun r => rfl)
  · rw [if_neg hc]

theorem matchesVal_applyParticipant (s : List (String × StatRec)) (q pid : String) :
    matchesVal pid (applyParticipant s q)
      = matchesVal pid s + (if q = pid ∧ hasKey pid s = true then 1 else 0) := by
  unfold applyParticipant
  by_cases hc : hasKey q s = true
  · rw [if_pos hc]
    by_cases hq : q = pid
    · subst hq
      rw [matchesVal_bumpMatches_self hc, if_pos ⟨rfl, hc⟩]
    · rw [matchesVal_bumpMatches_ne (fun h => hq h.symm),
        if_neg (fun hcon => hq hcon.1)]
      simp
  · rw [if_neg hc, if_neg ?_]
    · simp
    · intro hcon
      apply hc
      rw [hcon.1]
      exact hcon.2

theorem matchesVal_foldl_participants (parts : List String) :
    ∀ (s : List (String × StatRec)) (pid : String),
    matchesVal pid (parts.foldl applyParticipant s)
      = matchesVal pid s + (if hasKey pid s = true then parts.count pid else 0) := by
  induction parts with
  | nil =>
    intro s pid
    by_cases h : hasKey pid s = true <;> simp [h]
  | cons q rest ih =>
    intro s pid
    simp only [List.foldl_cons]
    rw [ih (applyParticipant s q) pid, matchesVal_applyParticipant,
      hasKey_applyParticipant, List.count_cons]
    by_cases hk : hasKey pid s = true
    · by_cases hq : q = pid
      · subst hq
        simp [hk]
        omega
      · simp [hk, hq, Ne.symm hq]
    · simp [hk]

theorem goalsVal_foldl_participants (parts : List String) :
    ∀ (s : List (String × StatRec)) (pid : String),
    goalsVal pid (parts.foldl applyParticipant s) = goalsVal pid s := by
  induction parts with
  | nil => intro s pid; rfl
  | cons q rest ih =>
    intro s pid
    simp only [List.foldl_cons]
    rw [ih (applyParticipant s q) pid, goalsVal_applyParticipant]

theorem assistsVal_foldl_participants (parts : List String) :
    ∀ (s : List (String × StatRec)) (pid : String),
    assistsVal pid (parts.foldl applyParticipant s) = assistsVal pid s := by
  induction parts with
  | nil => intro s pid; rfl
  | cons q rest ih =>
    intro s pid
    simp only [List.foldl_cons]
    rw [ih (applyParticipant s q) pid, assistsVal_applyParticipant]

theorem matchesVal_foldl_events (es : List MatchEvent) :
    ∀ (s : List (String × StatRec)) (pid : String),
    matchesVal pid (es.foldl applyEvent s) = matchesVal pid s := by
  induction es with
  | nil => intro s pid; rfl
  | cons e rest ih =>
    intro s pid
    simp only [List.foldl_cons]
    rw [ih (applyEvent s e) pid, matchesVal_applyEvent]

theorem goalsVal_foldl_events_unref (es : List MatchEvent) :
    ∀ (s : List (String × StatRec)) (pid : String),
    (∀ e ∈ es, e.playerId ≠ pid) →
    goalsVal pid (es.foldl applyEvent s) = goalsVal pid s := by
  induction es with
  | nil => intro s pid _; rfl
  | cons e rest ih =>
    intro s pid h
    simp only [List.foldl_cons]
    rw [ih (applyEvent s e) pid (fun e' he' => h e' (List.mem_cons_of_mem _ he')),
      goalsVal_applyEvent,
      if_neg (fun hcon => h e (List.mem_cons_self _ _) hcon.2.1)]
    simp

theorem assistsVal_foldl_events_unref (es : List MatchEvent) :
    ∀ (s : List (String × StatRec)) (pid : String),
    (∀ e ∈ es, assistKey e ≠ some pid) →
    assistsVal pid (es.foldl applyEvent s) = assistsVal pid s := by
  induction es with
  | nil => intro s pid _; rfl
  | cons e rest ih =>
    intro s pid h
    simp only [List.foldl_cons]
    rw [ih (applyEvent s e) pid (fun e' he' => h e' (List.mem_cons_of_mem _ he')),
      assistsVal_applyEvent,
      if_neg (fun hcon => h e (List.mem_cons_self _ _) hcon.2.1)]
    simp

theorem matchesVal_applyMatch (s : List (String × StatRec)) (m : Match)
    (pid : String) :
    matchesVal pid (applyMatch s m)
      = matchesVal pid s +
        (if hasKey pid s = true
          then (m.homePlayerIds ++ m.awayPlayerIds).count pid else 0) := by
  unfold applyMatch
  rw [matchesVal_foldl_events, matchesVal_foldl_participants]

theorem goalsVal_applyMatch_unref (s : List (String × StatRec)) (m : Match)
    (pid : String) (h : ∀ e ∈ m.events, e.playerId ≠ pid) :
    goalsVal pid (applyMatch s m) = goalsVal pid s := by
  unfold applyMatch
  rw [goalsVal_foldl_events_unref m.events _ pid h, goalsVal_foldl_participants]

theorem assistsVal_applyMatch_unref (s : List (String × StatRec)) (m : Match)
    (pid : String) (h : ∀ e ∈ m.events, assistKey e ≠ some pid) :
    assistsVal pid (applyMatch s m) = assistsVal pid s := by
  unfold applyMatch
  rw [assistsVal_foldl_events_unref m.events _ pid h, assistsVal_foldl_participants]

theorem goalsVal_foldl_matches_unref (L : List Match) :
    ∀ (s : List (String × StatRec)) (pid : String),
    (∀ m ∈ L, ∀ e ∈ m.events, e.playerId ≠ pid) →
    goalsVal pid (L.foldl applyMatch s) = goalsVal pid s := by
  induction L with
  | nil => intro s pid _; rfl
  | cons m rest ih =>
    intro s pid h
    simp only [List.foldl_cons]
    rw [ih (applyMatch s m) pid (fun m' hm' => h m' (List.mem_cons_of_mem _ hm')),
      goalsVal_applyMatch_unref s m pid (h m (List.mem_cons_self _ _))]

theorem assistsVal_foldl_matches_unref (L : List Match) :
    ∀ (s : List (String × StatRec)) (pid : String),
    (∀ m ∈ L, ∀ e ∈ m.events, assistKey e ≠ some pid) →
    assistsVal pid (L.foldl applyMatch s) = assistsVal pid s := by
  induction L with
  | nil => intro s pid _; rfl
  | cons m rest ih =>
    intro s pid h
    simp only [List.foldl_cons]
    rw [ih (applyMatch s m) pid (fun m' hm' => h m' (List.mem_cons_of_mem _ hm')),
      assistsVal_applyMatch_unref s m pid (h m (List.mem_cons_self _ _))]

theorem length_bumpWith (f : StatRec → StatRec) (k : String) :
    ∀ s : List (String × StatRec), (bumpWith f k s).length = s.length := by
  intro s
  induction s with
  | nil => rfl
  | cons kv rest ih =>
    obtain ⟨k', v'⟩ := kv
    simp only [bumpWith]
    by_cases h : (k' == k) = true
    · rw [if_pos h]
      simp
    · rw [if_neg h]
      simp [ih]

theorem length_applyParticipant (s : List (String × StatRec)) (q : String) :
    (applyParticipant s q).length = s.length := by
  unfold applyParticipant
  by_cases hc : hasKey q s = true
  · rw [if_pos hc]
    exact length_bumpWith _ _ _
  · rw [if_neg hc]

theorem length_applyEvent (s : List (String × StatRec)) (e : MatchEvent) :
    (applyEvent s e).length = s.length := by
  unfold applyEvent applyEventAssist applyEventGoal
  have h1 : ∀ s' : List (String × StatRec),
      (if e.type == EventType.goal && hasKey e.playerId s' then
        bumpWith incGoals e.playerId s' else s').length = s'.length := by
    intro s'
    by_cases hc : (e.type == EventType.goal && hasKey e.playerId s') = true
    · rw [if_pos hc]
      exact length_bumpWith _ _ _
    · rw [if_neg hc]
  cases hak : assistKey e with
  | none => exact h1 s
  | some a =>
    show (if e.type == EventType.goal &&
        hasKey a (if e.type == EventType.goal && hasKey e.playerId s then
          bumpWith incGoals e.playerId s else s) then
        bumpWith incAssists a (if e.type == EventType.goal && hasKey e.playerId s then
          bumpWith incGoals e.playerId s else s)
      else (if e.type == EventType.goal && hasKey e.playerId s then
          bumpWith incGoals e.playerId s else s)).length = s.length
    by_cases hc : (e.type == EventType.goal &&
        hasKey a (if e.type == EventType.goal && hasKey e.playerId s then
          bumpWith incGoals e.playerId s else s)) = true
    · rw [if_pos hc, length_bumpWith]
      exact h1 s
    · rw [if_neg hc]
      exact h1 s

theorem length_foldl_participants (parts : List String) :
    ∀ s : List (String × StatRec),
    (parts.foldl applyParticipant s).length = s.length := by
  induction parts with
  | nil => intro s; rfl
  | cons q rest ih =>
    intro s
    simp only [List.foldl_cons]
    rw [ih, length_applyParticipant]

theorem length_foldl_events (es : List MatchEvent) :
    ∀ s : List (String × StatRec),
    (es.foldl applyEvent s).length = s.length := by
  induction es with
  | nil => intro s; rfl
  | cons e rest ih =>
    intro s
    simp only [List.foldl_cons]
    rw [ih, length_applyEvent]

theorem length_applyMatch (s : List (String × StatRec)) (m : Match) :
    (applyMatch s m).length = s.length := by
  unfold applyMatch
  rw [length_foldl_events, length_foldl_participants]

theorem length_foldl_matches (L : List Match) :
    ∀ s : List (String × StatRec),
    (L.foldl applyMatch s).length = s.length := by
  induction L with
  | nil => intro s; rfl
  | cons m rest ih =>
    intro s
    simp only [List.foldl_cons]
    rw [ih, length_applyMatch]

theorem length_statsAssoc {players : List Player} (ms : List Match)
    (hnd : (players.map (fun p => p.id)).Nodup) :
    (statsAssoc players ms).length = players.length := by
  unfold statsAssoc
  rw [length_foldl_matches, seedStats_eq hnd, List.length_map]

theorem lookupKey_seedStats {players : List Player}
    (hnd : (players.map (fun p => p.id)).Nodup) {p : Player}
    (hp : p ∈ players) :
    lookupKey p.id (seedStats players) = some (initRec p) := by
  rw [seedStats_eq hnd]
  exact lookupKey_map_initRec hnd hp

theorem assistPlayerId_of_assistKey {e : MatchEvent} {a : String}
    (h : assistKey e = some a) : e.assistPlayerId = some a := by
  unfold assistKey at h
  cases hap : e.assistPlayerId with
  | none => rw [hap] at h; cases h
  | some b =>
    rw [hap] at h
    replace h : (if b ≠ "" then some b else (none : Option String)) = some a := h
    by_cases hb : b ≠ ""
    · rw [if_pos hb] at h
      exact h
    · rw [if_neg hb] at h
      cases h

theorem not_referenced_events {pid : String} {ms : List Match}
    (h : referencedIn pid ms = false) :
    ∀ m ∈ ms, m.isFinished = true → ∀ e ∈ m.events,
      e.playerId ≠ pid ∧ e.assistPlayerId ≠ some pid := by
  intro m hm hfin e he
  constructor
  · intro hcon
    have htrue : referencedIn pid ms = true := by
      unfold referencedIn
      rw [List.any_eq_true]
      refine ⟨m, hm, ?_⟩
      rw [Bool.and_eq_true]
      exact ⟨hfin, List.any_eq_true.2 ⟨e, he, by simp [hcon]⟩⟩
    rw [htrue] at h
    cases h
  · intro hcon
    have htrue : referencedIn pid ms = true := by
      unfold referencedIn
      rw [List.any_eq_true]
      refine ⟨m, hm, ?_⟩
      rw [Bool.and_eq_true]
      exact ⟨hfin, List.any_eq_true.2 ⟨e, he, by simp [hcon]⟩⟩
    rw [htrue] at h
    cases h

/-- C1: the matches-variant aggregator.  For player lists with unique ids
(the data-model invariant): the output has exactly one record per player,
and a player not referenced by any event of a finished match keeps goals
and assists equal to the baselines (absent treated as zero).  Only
finished matches are replayed.  Replaying one event increments the goal
count of the acting player's record by one exactly when the event type is
Goal and the acting player is present, and the assist count of the
assisting player's record by one exactly when the event type is Goal, the
assisting player is set (truthy), and that player is present; absent ids
are skipped.  Replaying one match adds one per occurrence in the
participant lists to the match count of each present participating
player. -/
theorem claim_C1_aggregator :
    (∀ (players : List Player) (ms : List Match),
      (players.map (fun p => p.id)).Nodup →
      (statsApp players ms).length = players.length ∧
      (∀ p ∈ players, referencedIn p.id ms = false →
        goalsVal p.id (statsAssoc players ms) = orZero p.initialGoals ∧
        assistsVal p.id (statsAssoc players ms) = orZero p.initialAssists)) ∧
    (∀ (players : List Player) (ms : List Match),
      statsAssoc players ms
        = statsAssoc players (ms.filter (fun m => m.isFinished))) ∧
    (∀ (s : List (String × StatRec)) (e : MatchEvent) (pid : String),
      goalsVal pid (applyEvent s e)
        = goalsVal pid s +
          (if e.type = .goal ∧ e.playerId = pid ∧ hasKey pid s = true
            then 1 else 0)) ∧
    (∀ (s : List (String × StatRec)) (e : MatchEvent) (pid : String),
      assistsVal pid (applyEvent s e)
        = assistsVal pid s +
          (if e.type = .goal ∧ assistKey e = some pid ∧ hasKey pid s = true
            then 1 else 0)) ∧
    (∀ (s : List (String × StatRec)) (m : Match) (pid : String),
      matchesVal pid (applyMatch s m)
        = matchesVal pid s +
          (if hasKey pid s = true
            then (m.homePlayerIds ++ m.awayPlayerIds).count pid else 0)) := by
  refine ⟨?_, ?_, goalsVal_applyEvent, assistsVal_applyEvent,
    matchesVal_applyMatch⟩
  · intro players ms hnd
    constructor
    · unfold statsApp
      rw [length_sortBy, List.length_map, length_statsAssoc ms hnd]
    · intro p hp href
      have hev := not_referenced_events href
      have h1 : ∀ m ∈ ms.filter (fun m => m.isFinished),
          ∀ e ∈ m.events, e.playerId ≠ p.id := by
        intro m hm e he
        have hmem := List.mem_filter.1 hm
        exact (hev m hmem.1 (by simpa using hmem.2) e he).1
      have h2 : ∀ m ∈ ms.filter (fun m => m.isFinished),
          ∀ e ∈ m.events, assistKey e ≠ some p.id := by
        intro m hm e he hak
        have hmem := List.mem_filter.1 hm
        exact (hev m hmem.1 (by simpa using hmem.2) e he).2
          (assistPlayerId_of_assistKey hak)
      unfold statsAssoc
      constructor
      · rw [goalsVal_foldl_matches_unref _ _ _ h1]
        unfold goalsVal
        rw [lookupKey_seedStats hnd hp]
        rfl
      · rw [assistsVal_foldl_matches_unref _ _ _ h2]
        unfold assistsVal
        rw [lookupKey_seedStats hnd hp]
        rfl
  · intro players ms
    unfold statsAssoc
    rw [List.filter_filter]
    simp

/-- C1 witness at a one-player list with no matches. -/
theorem claim_C1_aggregator_witness :
    (statsApp [pAna] []).length = 1 ∧
    goalsVal pAna.id (statsAssoc [pAna] []) = orZero pAna.initialGoals := by
  have h := claim_C1_aggregator.1 [pAna] [] (by decide)
  exact ⟨h.1, (h.2 pAna (List.mem_cons_self _ _) (by decide)).1⟩

/-! ## Claim C3: the single-active-match invariant -/

theorem nodup_all_eq_length_le_one {l : List α} (hnd : l.Nodup) {c : α}
    (h : ∀ x ∈ l, x = c) : l.length ≤ 1 := by
  cases l with
  | nil => simp
  | cons x xs =>
    cases xs with
    | nil => simp
    | cons y ys =>
      exfalso
      have hx := h x (List.mem_cons_self _ _)
      have hy := h y (List.mem_cons_of_mem _ (List.mem_cons_self _ _))
      have hxy : x = y := hx.trans hy.symm
      have hnotin := (List.nodup_cons.1 hnd).1
      exact hnotin (by rw [hxy]; exact List.mem_cons_self y ys)

theorem eq_of_mem_of_length_le_one {l : List α} (h : l.length ≤ 1) {a b : α}
    (ha : a ∈ l) (hb : b ∈ l) : a = b := by
  cases l with
  | nil => cases ha
  | cons x xs =>
    cases xs with
    | nil =>
      have ha' : a = x := by simpa using ha
      have hb' : b = x := by simpa using hb
      rw [ha', hb']
    | cons y ys => simp at h

theorem countUnfinished_eq_zero_iff (l : List Match) :
    countUnfinished l = 0 ↔ ∀ m ∈ l, m.isFinished = true := by
  unfold countUnfinished
  rw [List.length_eq_zero, List.filter_eq_nil_iff]
  constructor
  · intro h m hm
    have := h m hm
    simpa using this
  · intro h m hm
    simp [h m hm]

theorem count_le_one_of_inv {store : List Match} {i : String}
    (hnd : (store.map (fun m => m.id)).Nodup)
    (h : ∀ m ∈ store, m.isFinished = false → m.id = i) :
    countUnfinished store ≤ 1 := by
  have hsub : ((store.filter (fun m => !m.isFinished)).map (fun m => m.id)).Sublist
      (store.map (fun m => m.id)) := (List.filter_sublist _).map _
  have hnd2 : ((store.filter (fun m => !m.isFinished)).map (fun m => m.id)).Nodup :=
    hnd.sublist hsub
  have hall : ∀ x ∈ (store.filter (fun m => !m.isFinished)).map (fun m => m.id),
      x = i := by
    intro x hx
    rcases List.mem_map.1 hx with ⟨m, hm, rfl⟩
    have hmem := List.mem_filter.1 hm
    exact h m hmem.1 (by simpa using hmem.2)
  have hlen := nodup_all_eq_length_le_one hnd2 hall
  simpa [countUnfinished] using hlen

theorem mem_replaceFirstBy_id {a x : Match} {k : String} {l : List Match}
    (hnd : (l.map (fun m => m.id)).Nodup)
    (hx : x ∈ replaceFirstBy (fun q => q.id == k) a l) :
    x = a ∨ (x ∈ l ∧ x.id ≠ k) := by
  induction l with
  | nil => simp [replaceFirstBy] at hx
  | cons y ys ih =>
    simp only [List.map_cons, List.nodup_cons] at hnd
    simp only [replaceFirstBy] at hx
    by_cases hy : (y.id == k) = true
    · rw [if_pos hy] at hx
      rcases List.mem_cons.1 hx with rfl | hx'
      · exact Or.inl rfl
      · right
        refine ⟨List.mem_cons_of_mem _ hx', ?_⟩
        intro hcon
        have hyk : y.id = k := by simpa using hy
        apply hnd.1
        rw [hyk, ← hcon]
        exact List.mem_map.2 ⟨x, hx', rfl⟩
    · rw [if_neg hy] at hx
      rcases List.mem_cons.1 hx with rfl | hx'
      · right
        exact ⟨List.mem_cons_self _ _, by simpa using hy⟩
      · rcases ih hnd.2 hx' with h | ⟨hmem, hne⟩
        · exact Or.inl h
        · exact Or.inr ⟨List.mem_cons_of_mem _ hmem, hne⟩

theorem ids_updateMatchLocal (e : Match) (store : List Match) :
    List.Perm ((updateMatchLocal e store).map (fun m => m.id))
      (store.map (fun m => m.id)) := by
  unfold updateMatchLocal
  by_cases hany : (store.any (fun q => q.id == e.id)) = true
  · rw [if_pos hany]
    unfold getAllMatchesLocal
    rw [map_replaceFirstBy_key _ (fun x _ hx => by simpa using hx)]
    exact (perm_sortBy matchDateLe store).map _
  · rw [if_neg hany]

theorem lifecycleInv_load (persisted : List Match)
    (hnd : (persisted.map (fun m => m.id)).Nodup)
    (hcount : countUnfinished persisted ≤ 1) :
    lifecycleInv (loadState persisted) := by
  refine ⟨hnd, ?_⟩
  unfold loadState
  cases hfind : (getAllMatchesLocal persisted).find? (fun m => !m.isFinished) with
  | none =>
    show countUnfinished persisted = 0
    rw [countUnfinished_eq_zero_iff]
    intro m hm
    have hm' : m ∈ getAllMatchesLocal persisted := mem_sortBy.2 hm
    have := List.find?_eq_none.1 hfind m hm'
    simpa using this
  | some f =>
    show ∀ m ∈ persisted, m.isFinished = false → m.id = f.id
    intro m hm hfin
    have hf_mem : f ∈ getAllMatchesLocal persisted := List.mem_of_find?_eq_some hfind
    have hf_unfin : f.isFinished = false := by
      have := List.find?_some hfind
      simpa using this
    have hf_per : f ∈ persisted := mem_sortBy.1 hf_mem
    have hmf : m ∈ persisted.filter (fun m => !m.isFinished) :=
      List.mem_filter.2 ⟨hm, by simp [hfin]⟩
    have hff : f ∈ persisted.filter (fun m => !m.isFinished) :=
      List.mem_filter.2 ⟨hf_per, by simp [hf_unfin]⟩
    have heq : m = f := eq_of_mem_of_length_le_one hcount hmf hff
    rw [heq]

theorem lifecycleInv_step (st : AppState) (op : Op)
    (hinv : lifecycleInv st) (hfresh : freshOk st op = true) :
    lifecycleInv (step st op) := by
  obtain ⟨hnd, hrest⟩ := hinv
  cases op with
  | start hn an his ais nid now =>
    simp only [step]
    by_cases hempty : (his.isEmpty || ais.isEmpty) = true
    · rw [if_pos hempty]
      exact ⟨hnd, hrest⟩
    · rw [if_neg hempty]
      by_cases hact : st.activeId.isSome = true
      · rw [if_pos hact]
        exact ⟨hnd, hrest⟩
      · rw [if_neg hact]
        have hnone : st.activeId = none := by
          cases h' : st.activeId
          · rfl
          · rw [h'] at hact
            simp at hact
        rw [hnone] at hrest
        have hc0 : countUnfinished st.store = 0 := hrest
        have hfin : ∀ m ∈ st.store, m.isFinished = true :=
          (countUnfinished_eq_zero_iff _).1 hc0
        have hfresh' : ∀ m ∈ st.store, m.id ≠ nid := by
          simp only [freshOk] at hfresh
          intro m hm hcon
          have hany : st.store.any (fun m => m.id == nid) = true :=
            List.any_eq_true.2 ⟨m, hm, by simp [hcon]⟩
          rw [hany] at hfresh
          simp at hfresh
        constructor
        · simp only [addMatchLocal, getAllMatchesLocal, List.map_append]
          refine List.Nodup.append ?_ (by simp) ?_
          · exact ((perm_sortBy matchDateLe st.store).map _).nodup_iff.2 hnd
          · intro x hx1 hx2
            rcases List.mem_map.1 hx1 with ⟨m, hm, rfl⟩
            have hm' : m ∈ st.store := mem_sortBy.1 hm
            have hx2' : m.id = nid := by simpa [newMatchOf] using hx2
            exact hfresh' m hm' hx2'
        · show ∀ m ∈ addMatchLocal (newMatchOf hn an his ais nid now) st.store,
            m.isFinished = false → m.id = nid
          intro m hm hfin'
          rcases List.mem_append.1 hm with hm' | hm'
          · have hmem : m ∈ st.store := mem_sortBy.1 hm'
            rw [hfin m hmem] at hfin'
            cases hfin'
          · have heq : m = newMatchOf hn an his ais nid now := by simpa using hm'
            rw [heq]
            rfl
  | recordEvent t side pid eid r ts =>
    simp only [step]
    cases hact : st.activeId with
    | none => exact ⟨hnd, hrest⟩
    | some i =>
      show lifecycleInv (match st.store.find? (fun m => m.id == i) with
        | none => st
        | some m =>
          { store := updateMatchLocal (addEventMatch m t side pid eid r ts) st.store,
            activeId := some i })
      cases hfind : st.store.find? (fun m => m.id == i) with
      | none => exact ⟨hnd, hrest⟩
      | some m =>
        rw [hact] at hrest
        have hrest' : ∀ m' ∈ st.store, m'.isFinished = false → m'.id = i := hrest
        have hm_mem : m ∈ st.store := List.mem_of_find?_eq_some hfind
        have hm_id : m.id = i := by simpa using List.find?_some hfind
        constructor
        · exact ((ids_updateMatchLocal (addEventMatch m t side pid eid r ts)
            st.store).nodup_iff).2 hnd
        · show ∀ m' ∈ updateMatchLocal (addEventMatch m t side pid eid r ts)
              st.store, m'.isFinished = false → m'.id = i
          intro m' hm' hfin'
          unfold updateMatchLocal at hm'
          by_cases hany : (st.store.any
              (fun q => q.id == (addEventMatch m t side pid eid r ts).id)) = true
          · rw [if_pos hany] at hm'
            rcases mem_replaceFirstBy hm' with rfl | hm''
            · show (addEventMatch m t side pid eid r ts).id = i
              exact hm_id
            · exact hrest' m' (mem_sortBy.1 hm'') hfin'
          · rw [if_neg hany] at hm'
            exact hrest' m' hm' hfin'
  | finish report =>
    simp only [step]
    cases hact : st.activeId with
    | none => exact ⟨hnd, hrest⟩
    | some i =>
      show lifecycleInv (match st.store.find? (fun m => m.id == i) with
        | none => st
        | some m =>
          { store := updateMatchLocal (finishMatchM m report) st.store,
            activeId := none })
      cases hfind : st.store.find? (fun m => m.id == i) with
      | none => exact ⟨hnd, hrest⟩
      | some m =>
        rw [hact] at hrest
        have hrest' : ∀ m' ∈ st.store, m'.isFinished = false → m'.id = i := hrest
        have hm_mem : m ∈ st.store := List.mem_of_find?_eq_some hfind
        have hm_id : m.id = i := by simpa using List.find?_some hfind
        have hany : (st.store.any
            (fun q => q.id == (finishMatchM m report).id)) = true :=
          List.any_eq_true.2 ⟨m, hm_mem, by simp [finishMatchM]⟩
        constructor
        · exact ((ids_updateMatchLocal (finishMatchM m report)
            st.store).nodup_iff).2 hnd
        · show countUnfinished (updateMatchLocal (finishMatchM m report)
            st.store) = 0
          rw [countUnfinished_eq_zero_iff]
          intro m' hm'
          unfold updateMatchLocal at hm'
          rw [if_pos hany] at hm'
          have hnds : ((getAllMatchesLocal st.store).map (fun q => q.id)).Nodup :=
            ((perm_sortBy matchDateLe st.store).map _).nodup_iff.2 hnd
          rcases mem_replaceFirstBy_id hnds hm' with rfl | ⟨hmem, hne⟩
          · rfl
          · by_contra hcon
            have hfin' : m'.isFinished = false := by
              cases hfb : m'.isFinished
              · rfl
              · exact absurd hfb hcon
            apply hne
            show m'.id = (finishMatchM m report).id
            rw [hrest' m' (mem_sortBy.1 hmem) hfin']
            exact hm_id.symm

theorem lifecycleInv_run (ops : List Op) :
    ∀ st : AppState, lifecycleInv st → wfOps st ops = true →
    lifecycleInv (runOps st ops) := by
  induction ops with
  | nil => intro st hinv _; exact hinv
  | cons op rest ih =>
    intro st hinv hwf
    simp only [wfOps, Bool.and_eq_true] at hwf
    exact ih (step st op) (lifecycleInv_step st op hinv hwf.1) hwf.2

/-- C3: starting from a persisted collection with unique match ids and at
most one unfinished match, after any sequence of lifecycle operations
(load/resume, start match, record event, finish match) with fresh
generated ids, at most one persisted match has `finished = false`. -/
theorem claim_C3_single_active :
    ∀ (persisted : List Match) (ops : List Op),
      (persisted.map (fun m => m.id)).Nodup →
      countUnfinished persisted ≤ 1 →
      wfOps (loadState persisted) ops = true →
      countUnfinished (runOps (loadState persisted) ops).store ≤ 1 := by
  intro persisted ops hnd hcount hwf
  obtain ⟨hnd', hrest⟩ := lifecycleInv_run ops (loadState persisted)
    (lifecycleInv_load persisted hnd hcount) hwf
  cases hact : (runOps (loadState persisted) ops).activeId with
  | none =>
    rw [hact] at hrest
    have h0 : countUnfinished (runOps (loadState persisted) ops).store = 0 := hrest
    omega
  | some i =>
    rw [hact] at hrest
    exact count_le_one_of_inv hnd' hrest

/-- C3 witness: starting a match from an empty store. -/
theorem claim_C3_single_active_witness :
    countUnfinished
      (runOps (loadState []) [Op.start "A" "B" ["1"] ["2"] "m1" 100]).store ≤ 1 :=
  claim_C3_single_active [] [Op.start "A" "B" ["1"] ["2"] "m1" 100]
    (by decide) (by decide) (by decide)

end Futbol
